import Mathlib

/-!
Verification of the event-text parser and calendar-generation engine of
`backend/scripts/process_syllabus.py` (AggieAce syllabus-to-iCalendar converter).

Strings are modelled as `List Char`.  Python `datetime` values occurring in
this program always have a zero time component, so they are modelled by a
`Date` (year/month/day) record; `datetime`'s documented supported range
(year 1..9999) is modelled by `validDate` and by `nextDay` returning `none`
past 9999-12-31 (Python raises `OverflowError` there).  Functions that can
raise are modelled with `Option`/`Except`.
-/

/-- Convert a string literal to the `List Char` representation used throughout. -/
def cl (s : String) : List Char := s.toList

/-- Python whitespace for `str.strip` and the regex class `\s` (ASCII). -/
def isPyWs (c : Char) : Bool :=
  c == ' ' || c == '\t' || c == '\n' || c == '\r' || c == '\x0b' || c == '\x0c'

/-- Model of Python `str.strip()`: drop leading and trailing whitespace. -/
def pyStrip (l : List Char) : List Char :=
  ((l.dropWhile isPyWs).reverse.dropWhile isPyWs).reverse

/-- The ASCII upper/lower pairs of `str.lower()`. -/
def lowerPairs : List (Char × Char) :=
  [('A', 'a'), ('B', 'b'), ('C', 'c'), ('D', 'd'), ('E', 'e'), ('F', 'f'),
   ('G', 'g'), ('H', 'h'), ('I', 'i'), ('J', 'j'), ('K', 'k'), ('L', 'l'),
   ('M', 'm'), ('N', 'n'), ('O', 'o'), ('P', 'p'), ('Q', 'q'), ('R', 'r'),
   ('S', 's'), ('T', 't'), ('U', 'u'), ('V', 'v'), ('W', 'w'), ('X', 'x'),
   ('Y', 'y'), ('Z', 'z')]

/-- Model of Python `str.lower()` on the ASCII range (all text this program
compares against is ASCII). -/
def pyLower (c : Char) : Char :=
  ((lowerPairs.find? fun p => p.1 == c).map Prod.snd).getD c

/-- Model of the Python substring test `pat in s` (and executable form of
`List.IsInfix`). -/
def isSubstrOf (pat : List Char) : List Char → Bool
  | [] => pat.isEmpty
  | c :: t => pat.isPrefixOf (c :: t) || isSubstrOf pat t

/-- Model of Python `str.split(sep)` for a one-character separator. -/
def splitChar (sep : Char) : List Char → List (List Char)
  | [] => [[]]
  | c :: t =>
    match splitChar sep t with
    | [] => [[]]
    | h :: r => if c = sep then [] :: h :: r else (c :: h) :: r

/-- Model of Python `sep.join(pieces)`. -/
def joinSep (sep : List Char) : List (List Char) → List Char
  | [] => []
  | [a] => a
  | a :: b :: r => a ++ sep ++ joinSep sep (b :: r)

/-- Numeric value of a list of decimal digit characters. -/
def digitsToNat (l : List Char) : Nat :=
  l.foldl (fun a c => a * 10 + (c.toNat - 48)) 0

/-- Decimal digit characters of `n` (fuel-structured so it reduces in the kernel). -/
def natDigitsAux : Nat → Nat → List Char
  | 0, _ => []
  | fuel + 1, n =>
    if n < 10 then [Nat.digitChar n]
    else natDigitsAux fuel (n / 10) ++ [Nat.digitChar (n % 10)]

/-- Decimal digit characters of `n`. -/
def natDigits (n : Nat) : List Char := natDigitsAux (n + 1) n

/-- Model of Python zero-padded formatting `f"{n:0wd}"` (and of `strftime`'s
zero-padded numeric fields): pad with zeros to at least width `w`, never
truncating. -/
def pad (w n : Nat) : List Char :=
  List.replicate (w - (natDigits n).length) '0' ++ natDigits n

/-- Model of Python `int(s)` restricted to the strings this program can pass it
(runs of decimal digits, possibly empty — `int('')` raises `ValueError`,
modelled as `none`). -/
def pyInt (l : List Char) : Option Nat :=
  if l ≠ [] ∧ l.all Char.isDigit then some (digitsToNat l) else none

/-- Model of Python `str.isdigit()` (ASCII): non-empty and all digits. -/
def pyIsDigit (l : List Char) : Bool := !l.isEmpty && l.all Char.isDigit

/-! ## Dates (Python `datetime` with zero time component) -/

/-- A Python `datetime` as used in this program: the time component is always
midnight, so only the calendar date is carried. -/
structure Date where
  year : Nat
  month : Nat
  day : Nat
deriving DecidableEq, Repr

/-- Gregorian leap-year rule (as implemented by Python's `calendar`/`datetime`). -/
def isLeap (y : Nat) : Bool := y % 4 == 0 && (y % 100 != 0 || y % 400 == 0)

/-- Number of days in month `m` of year `y` (0 for an invalid month index). -/
def daysInMonth (y m : Nat) : Nat :=
  if m = 2 then (if isLeap y then 29 else 28)
  else if m = 4 ∨ m = 6 ∨ m = 9 ∨ m = 11 then 30
  else if 1 ≤ m ∧ m ≤ 12 then 31
  else 0

/-- Validity of a date for Python's `datetime` constructor:
`MINYEAR = 1 ≤ year ≤ MAXYEAR = 9999`, month and day in range. -/
def validDate (d : Date) : Prop :=
  1 ≤ d.year ∧ d.year ≤ 9999 ∧ 1 ≤ d.month ∧ d.month ≤ 12 ∧
    1 ≤ d.day ∧ d.day ≤ daysInMonth d.year d.month

instance instDecValidDate (d : Date) : Decidable (validDate d) := by
  unfold validDate; exact inferInstance

/-- Python `datetime` comparison (times are all midnight here): lexicographic. -/
def dateLt (a b : Date) : Prop :=
  a.year < b.year ∨ (a.year = b.year ∧
    (a.month < b.month ∨ (a.month = b.month ∧ a.day < b.day)))

instance instDecDateLt (a b : Date) : Decidable (dateLt a b) := by
  unfold dateLt; exact inferInstance

/-- Model of Python `dt.replace(year=y)`: validates the resulting date
(raising `ValueError`, modelled `none`, when it is invalid, e.g. Feb 29 of a
non-leap year or a year outside 1..9999). -/
def replaceYear (d : Date) (y : Nat) : Option Date :=
  if validDate ⟨y, d.month, d.day⟩ then some ⟨y, d.month, d.day⟩ else none

/-- Model of Python `dt + timedelta(days=1)`: `none` models the `OverflowError`
raised past `datetime.max` (9999-12-31). -/
def nextDay (d : Date) : Option Date :=
  if d.day < daysInMonth d.year d.month then some ⟨d.year, d.month, d.day + 1⟩
  else if d.month < 12 then some ⟨d.year, d.month + 1, 1⟩
  else if d.year < 9999 then some ⟨d.year + 1, 1, 1⟩
  else none

/-- `n` successive days after `d`, when all exist in `datetime`'s range. -/
def iterDays : Nat → Date → Option Date
  | 0, d => some d
  | n + 1, d =>
    match nextDay d with
    | none => none
    | some d' => iterDays n d'

/-- Days of year `y` that precede month `m`. -/
def daysBeforeMonth (y m : Nat) : Nat :=
  let leap : Nat := if isLeap y then 1 else 0
  if m = 1 then 0 else if m = 2 then 31 else if m = 3 then 59 + leap
  else if m = 4 then 90 + leap else if m = 5 then 120 + leap
  else if m = 6 then 151 + leap else if m = 7 then 181 + leap
  else if m = 8 then 212 + leap else if m = 9 then 243 + leap
  else if m = 10 then 273 + leap else if m = 11 then 304 + leap else 334 + leap

/-- Proleptic Gregorian day number (0001-01-01 ↦ 1). -/
def rataDie (d : Date) : Nat :=
  let n := d.year - 1
  365 * n + n / 4 + n / 400 - n / 100 + daysBeforeMonth d.year d.month + d.day

/-- Model of Python `datetime.weekday()`: Monday = 0 .. Sunday = 6
(0001-01-01 was a Monday in the proleptic Gregorian calendar). -/
def weekday (d : Date) : Nat := (rataDie d + 6) % 7

/-- Model of `strftime('%Y%m%d')`. -/
def fmtDate (d : Date) : List Char := pad 4 d.year ++ pad 2 d.month ++ pad 2 d.day

/-! ## `strptime` models (the formats `parse_date` /
`parse_extracted_events` use) -/

/-- A 1- or 2-digit numeric field (the `%m`/`%d` regex of `_strptime`,
combined with the range validation done by the `datetime` constructor). -/
def isDigits12 (l : List Char) : Bool :=
  (l.length == 1 || l.length == 2) && l.all Char.isDigit

/-- A 4-digit numeric field (the `%Y` regex of `_strptime`). -/
def isDigits4 (l : List Char) : Bool := (l.length == 4) && l.all Char.isDigit

/-- Model of `datetime.strptime(s, '%m/%d/%Y')` (full-string match; range
checks of the field regexes and of the `datetime` constructor folded into
`validDate`). -/
def strptimeMDY (s : List Char) : Option Date :=
  match splitChar '/' s with
  | [ms, ds, ys] =>
    if isDigits12 ms && isDigits12 ds && isDigits4 ys then
      if validDate ⟨digitsToNat ys, digitsToNat ms, digitsToNat ds⟩ then
        some ⟨digitsToNat ys, digitsToNat ms, digitsToNat ds⟩
      else none
    else none
  | _ => none

/-- Model of `datetime.strptime(s, '%m/%d')`: the year defaults to 1900
(so Feb 29 is rejected, 1900 not being a leap year). -/
def strptimeMD (s : List Char) : Option Date :=
  match splitChar '/' s with
  | [ms, ds] =>
    if isDigits12 ms && isDigits12 ds then
      if validDate ⟨1900, digitsToNat ms, digitsToNat ds⟩ then
        some ⟨1900, digitsToNat ms, digitsToNat ds⟩
      else none
    else none
  | _ => none

/-- Full month names with their numbers (`%B`, matched case-insensitively). -/
def monthNamesFull : List (List Char × Nat) :=
  [(cl ("january"), 1), (cl ("february"), 2), (cl ("march"), 3),
   (cl ("april"), 4), (cl ("may"), 5), (cl ("june"), 6), (cl ("july"), 7),
   (cl ("august"), 8), (cl ("september"), 9), (cl ("october"), 10),
   (cl ("november"), 11), (cl ("december"), 12)]

/-- Abbreviated month names with their numbers (`%b`, case-insensitive). -/
def monthNamesAbbr : List (List Char × Nat) :=
  [(cl ("jan"), 1), (cl ("feb"), 2), (cl ("mar"), 3), (cl ("apr"), 4),
   (cl ("may"), 5), (cl ("jun"), 6), (cl ("jul"), 7), (cl ("aug"), 8),
   (cl ("sep"), 9), (cl ("oct"), 10), (cl ("nov"), 11), (cl ("dec"), 12)]

/-- Match one month name from `names` at the head of `s` (no name in either
table is a proper head of another, so first-match is unambiguous). -/
def matchMonthName (names : List (List Char × Nat)) (s : List Char) :
    Option (Nat × List Char) :=
  names.findSome? fun p =>
    if p.1.isPrefixOf s then some (p.2, s.drop p.1.length) else none

/-- The regex `\s+` that `_strptime` substitutes for whitespace in a format:
require at least one whitespace character, consume the whole run. -/
def skipWs1 (s : List Char) : Option (List Char) :=
  match s with
  | c :: t => if isPyWs c then some ((c :: t).dropWhile isPyWs) else none
  | [] => none

/-- The `%d` field inside a larger format: a 1- or 2-digit run
(a longer digit run makes the regex match fail). -/
def takeDay (s : List Char) : Option (Nat × List Char) :=
  let ds := s.takeWhile Char.isDigit
  if ds.length == 1 || ds.length == 2 then some (digitsToNat ds, s.drop ds.length)
  else none

/-- Model of `datetime.strptime(s, '%B %d, %Y')` (with `names` the month-name
table): `_strptime` lowercases the input, matches the name, `\s+`, the day,
a literal comma, `\s+`, a 4-digit year, and requires the whole string to be
consumed. -/
def strptimeNameDY (names : List (List Char × Nat)) (s : List Char) : Option Date :=
  let t := s.map pyLower
  match matchMonthName names t with
  | none => none
  | some (m, r1) =>
    match skipWs1 r1 with
    | none => none
    | some r2 =>
      match takeDay r2 with
      | none => none
      | some (d, r3) =>
        match r3 with
        | ',' :: r4 =>
          match skipWs1 r4 with
          | none => none
          | some r5 =>
            if isDigits4 r5 then
              let dt : Date := ⟨digitsToNat r5, m, d⟩
              if validDate dt then some dt else none
            else none
        | _ => none

/-- Model of `datetime.strptime(s, '%B %d')` / `'%b %d'` (year defaults
to 1900). -/
def strptimeNameD (names : List (List Char × Nat)) (s : List Char) : Option Date :=
  let t := s.map pyLower
  match matchMonthName names t with
  | none => none
  | some (m, r1) =>
    match skipWs1 r1 with
    | none => none
    | some r2 =>
      match takeDay r2 with
      | none => none
      | some (d, r3) =>
        match r3 with
        | [] =>
          let dt : Date := ⟨1900, m, d⟩
          if validDate dt then some dt else none
        | _ => none

/-- The `'%m/%d'` attempt of `parse_date` (source lines 277-286): parse with
default year 1900, move to the semester start's year, and if the result
precedes the semester start move to the semester end's year.  A `ValueError`
from any step (modelled `none`) falls through to the next format attempt. -/
def tryMD (t : List Char) (semStart semEnd : Date) : Option Date :=
  match strptimeMD t with
  | none => none
  | some dt =>
    match replaceYear dt semStart.year with
    | none => none
    | some dt2 =>
      if dateLt dt2 semStart then replaceYear dt2 semEnd.year else some dt2

/-- The `'%B %d'` / `'%b %d'` attempts of `parse_date` (source lines 294-312):
same year-inference rule as `tryMD`. -/
def tryNameD (names : List (List Char × Nat)) (t : List Char)
    (semStart semEnd : Date) : Option Date :=
  match strptimeNameD names t with
  | none => none
  | some dt =>
    match replaceYear dt semStart.year with
    | none => none
    | some dt2 =>
      if dateLt dt2 semStart then replaceYear dt2 semEnd.year else some dt2

/-- The format cascade of `parse_date` (source lines 252-314) on the already
stripped token: try `'%m/%d/%Y'`, `'%m/%d'`, `'%B %d, %Y'`, `'%B %d'`,
`'%b %d'` in that order; `None` (here `none`) when every format fails. -/
def parseDateStripped (t : List Char) (semStart semEnd : Date) : Option Date :=
  match strptimeMDY t with
  | some d => some d
  | none =>
  match tryMD t semStart semEnd with
  | some d => some d
  | none =>
  match strptimeNameDY monthNamesFull t with
  | some d => some d
  | none =>
  match tryNameD monthNamesFull t semStart semEnd with
  | some d => some d
  | none => tryNameD monthNamesAbbr t semStart semEnd

/-- Model of `parse_date(date_str, sem_start, sem_end)`: strip, then try
the five formats via `parseDateStripped`. -/
def parseDate (dateStr : List Char) (semStart semEnd : Date) : Option Date :=
  parseDateStripped (pyStrip dateStr) semStart semEnd

/-! ## Weekday detection and first occurrence -/

/-- The `day_map` dict of `parse_extracted_events` (source lines 170-178),
in insertion order (Python dicts preserve it). -/
def dayMap : List (List Char × List Char) :=
  [(cl ("monday"), cl ("MO")), (cl ("mon"), cl ("MO")), (cl ("m"), cl ("MO")),
   (cl ("tuesday"), cl ("TU")), (cl ("tue"), cl ("TU")), (cl ("tu"), cl ("TU")),
   (cl ("t"), cl ("TU")),
   (cl ("wednesday"), cl ("WE")), (cl ("wed"), cl ("WE")), (cl ("w"), cl ("WE")),
   (cl ("thursday"), cl ("TH")), (cl ("thu"), cl ("TH")), (cl ("th"), cl ("TH")),
   (cl ("r"), cl ("TH")),
   (cl ("friday"), cl ("FR")), (cl ("fri"), cl ("FR")), (cl ("f"), cl ("FR")),
   (cl ("saturday"), cl ("SA")), (cl ("sat"), cl ("SA")), (cl ("s"), cl ("SA")),
   (cl ("sunday"), cl ("SU")), (cl ("sun"), cl ("SU")), (cl ("su"), cl ("SU"))]

/-- Weekday detection of `parse_extracted_events` (source lines 216-218): for
each `day_map` entry in order, if the (lowercased) date token contains the day
name as a substring and the code is not yet present, append the code. -/
def detectStep (dateLower : List Char) (acc : List (List Char))
    (p : List Char × List Char) : List (List Char) :=
  if isSubstrOf p.1 dateLower && !(acc.contains p.2) then acc ++ [p.2] else acc

/-- Weekday detection core loop (continued): fold `detectStep` over the
`day_map` entries starting from the empty list. -/
def detectDays (dateLower : List Char) : List (List Char) :=
  dayMap.foldl (detectStep dateLower) []

/-- The `day_to_weekday` dict of `find_first_occurrence` (source line 328). -/
def dayToWeekday : List (List Char × Nat) :=
  [(cl ("MO"), 0), (cl ("TU"), 1), (cl ("WE"), 2), (cl ("TH"), 3),
   (cl ("FR"), 4), (cl ("SA"), 5), (cl ("SU"), 6)]

/-- Errors the Python code can raise in the modelled fragment. -/
inductive PyError where
  | overflow
  | valueError (msg : List Char)
deriving DecidableEq, Repr

/-- The `for _ in range(7)` scan of `find_first_occurrence` (source lines
334-340): check up to 7 successive days for a matching weekday, advancing by
one day after each failed check (`current += timedelta(days=1)` raises
`OverflowError` past `datetime.max`); after an exhausted scan the ORIGINAL
start date is returned. -/
def ffoLoop (targets : List Nat) (orig : Date) : Nat → Date → Except PyError Date
  | 0, _ => .ok orig
  | n + 1, cur =>
    if weekday cur ∈ targets then .ok cur
    else
      match nextDay cur with
      | none => .error .overflow
      | some c' => ffoLoop targets orig n c'

/-- The `target_weekdays` list of `find_first_occurrence` (source line 329):
codes looked up in `day_to_weekday`, unknown codes dropped. -/
def ffoTargets (days : List (List Char)) : List Nat :=
  days.filterMap fun d => (dayToWeekday.find? (fun p => p.1 == d)).map Prod.snd

/-- Model of `find_first_occurrence(start_date, days)` (source lines 317-340). -/
def findFirstOccurrence (startDate : Date) (days : List (List Char)) :
    Except PyError Date :=
  if (ffoTargets days).isEmpty then .ok startDate
  else ffoLoop (ffoTargets days) startDate 7 startDate

/-! ## Time parsing -/

/-- Result of `parse_time`: `(None, None, True)` for all-day, otherwise two
`HHMMSS` strings with `False`. -/
inductive TimeSpec where
  | allDay
  | timed (startT endT : List Char)
deriving DecidableEq, Repr

/-- The all-day test of `parse_time` (source line 361) on the stripped,
lowercased token. -/
def isAllDayTok (ts : List Char) : Bool :=
  isSubstrOf (cl ("all-day")) ts || isSubstrOf (cl ("all day")) ts || ts.isEmpty

/-- The cleanup `re.sub(r'[^\d:-]', '', time_str)` (source line 365). -/
def cleanTime (ts : List Char) : List Char :=
  ts.filter fun c => c.isDigit || c == ':' || c == '-'

/-- Start/end sub-token extraction of `parse_time` (source lines 367-373):
split on `-` when present, else the whole token is the start and there is no
end token. -/
def splitStartEnd (cleaned : List Char) : List Char × Option (List Char) :=
  if '-' ∈ cleaned then
    match splitChar '-' cleaned with
    | p0 :: p1 :: _ => (pyStrip p0, some (pyStrip p1))
    | [p0] => (pyStrip p0, none)
    | [] => ([], none)
  else (cleaned, none)

/-- Start-time parsing of `parse_time` (source lines 376-382): `HH:MM` when a
colon is present (`int('')` raises, modelled `none`), a bare hour when the
token is all digits, otherwise `00:00`. -/
def parseStartTok (st : List Char) : Option (Nat × Nat) :=
  if ':' ∈ st then
    match splitChar ':' st with
    | p0 :: rest =>
      match pyInt p0 with
      | none => none
      | some h =>
        match rest with
        | p1 :: _ =>
          match pyInt p1 with
          | none => none
          | some m => some (h, m)
        | [] => some (h, 0)
    | [] => none
  else if pyIsDigit st = true then (pyInt st).map (fun h => (h, 0))
  else some (0, 0)

/-- End-time parsing of `parse_time` (source lines 385-395): like the start
when an end token is present (truthy), else default to start + 1 hour with the
minute preserved. -/
def parseEndTok (endTok : Option (List Char)) (sh sm : Nat) : Option (Nat × Nat) :=
  match endTok with
  | some et =>
    if et ≠ [] ∧ ':' ∈ et then
      match splitChar ':' et with
      | p0 :: rest =>
        match pyInt p0 with
        | none => none
        | some h =>
          match rest with
          | p1 :: _ =>
            match pyInt p1 with
            | none => none
            | some m => some (h, m)
          | [] => some (h, 0)
      | [] => none
    else if et ≠ [] ∧ pyIsDigit et = true then (pyInt et).map (fun h => (h, 0))
    else some (sh + 1, sm)
  | none => some (sh + 1, sm)

/-- `f"{h:02d}{m:02d}00"` (source lines 397-398). -/
def fmtHM (h m : Nat) : List Char := pad 2 h ++ pad 2 m ++ cl ("00")

/-- Model of `parse_time(time_str)` (source lines 343-400).  `none` models the
uncaught `ValueError` that `int('')` raises on tokens such as `":"`. -/
def parseTime (timeStr : List Char) : Option TimeSpec :=
  if isAllDayTok ((pyStrip timeStr).map pyLower) then some .allDay
  else
    match parseStartTok
        (splitStartEnd (cleanTime ((pyStrip timeStr).map pyLower))).1 with
    | none => none
    | some (sh, sm) =>
      match parseEndTok
          (splitStartEnd (cleanTime ((pyStrip timeStr).map pyLower))).2 sh sm with
      | none => none
      | some (eh, em) => some (.timed (fmtHM sh sm) (fmtHM eh em))

/-! ## iCalendar text escaping -/

/-- Model of Python `str.replace(old, new)` for a one-character `old`. -/
def replaceChar (old : Char) (new : List Char) (s : List Char) : List Char :=
  s.flatMap fun c => if c = old then new else [c]

/-- Model of `escape_ics_text` (source lines 403-419): backslash, semicolon,
comma, newline, in that order. -/
def escapeIcsText (t : List Char) : List Char :=
  if t.isEmpty then []
  else
    replaceChar '\n' (cl ("\\n"))
      (replaceChar ',' (cl ("\\,"))
        (replaceChar ';' (cl ("\\;"))
          (replaceChar '\\' (cl ("\\\\")) t)))

/-! ## Event records and `parse_extracted_events` -/

/-- The `'type'` tag plus variant-specific fields of an event dict
(source lines 222-241). -/
inductive EventKind where
  | single (date : Date)
  | recurring (days : List (List Char)) (startDate : Date) (endDate : Date)
deriving DecidableEq, Repr

/-- An event dict built by `parse_extracted_events`. -/
structure Event where
  name : List Char
  kind : EventKind
  time : List Char
  location : List Char
deriving DecidableEq, Repr

/-- Field splitting of one line (source lines 189-197): split on `|` when
present, else on a tab, else the line is unparsable. -/
def splitParts (line : List Char) : Option (List (List Char)) :=
  if '|' ∈ line then some ((splitChar '|' line).map pyStrip)
  else if '\t' ∈ line then some ((splitChar '\t' line).map pyStrip)
  else none

/-- Field extraction of one line (source lines 189-209): split, require at
least three fields, strip each, and default the location to `TBA`. -/
def splitFields (line : List Char) :
    Option (List Char × List Char × List Char × List Char) :=
  match splitParts line with
  | none => none
  | some (p0 :: p1 :: p2 :: rest) =>
    some (pyStrip p0, pyStrip p1, pyStrip p2, pyStrip (rest.headD (cl ("TBA"))))
  | some _ => none

/-- The recurring/single classification of one line (source lines 211-247):
weekday detection on the lowercased date token decides the branch; the
recurring branch computes the first occurrence (which can raise), the single
branch resolves the date and skips the line on failure. -/
def classifyLine (semStart semEnd : Date)
    (eventName dateStr timeStr location : List Char) :
    Except PyError (Option Event) :=
  if detectDays (dateStr.map pyLower) ≠ [] then
    match findFirstOccurrence semStart (detectDays (dateStr.map pyLower)) with
    | .error e => .error e
    | .ok sd =>
      .ok (some ⟨eventName,
        .recurring (detectDays (dateStr.map pyLower)) sd semEnd,
        timeStr, location⟩)
  else
    match parseDate dateStr semStart semEnd with
    | some d => .ok (some ⟨eventName, .single d, timeStr, location⟩)
    | none => .ok none

/-- Model of one iteration of the `parse_extracted_events` loop (source lines
183-247): `.ok none` is a skipped line, `.ok (some ev)` a parsed event, and
`.error` propagates the `OverflowError` that `find_first_occurrence` can
raise. -/
def parseLine (semStart semEnd : Date) (rawLine : List Char) :
    Except PyError (Option Event) :=
  if (pyStrip rawLine).isEmpty || (pyStrip rawLine).head? == some '#' ||
      (pyStrip rawLine).head? == some '-' then .ok none
  else
    match splitFields (pyStrip rawLine) with
    | none => .ok none
    | some (n, d, t, l) => classifyLine semStart semEnd n d t l

/-- The loop of `parse_extracted_events` over all lines, in order. -/
def parseLines (semStart semEnd : Date) : List (List Char) → Except PyError (List Event)
  | [] => .ok []
  | l :: rest =>
    match parseLine semStart semEnd l with
    | .error e => .error e
    | .ok ev? =>
      match parseLines semStart semEnd rest with
      | .error e => .error e
      | .ok evs =>
        .ok (match ev? with
             | some ev => ev :: evs
             | none => evs)

/-- Message of the `ValueError` `strptime` raises on unmatched input
(the exact Python message interpolates the data; only its occurrence
matters here). -/
def strptimeErrMsg : List Char := cl ("time data does not match format")

/-- Model of `parse_extracted_events(extracted_events, semester_start,
semester_end)` (source lines 150-249).  The two `datetime.strptime` calls on
the semester strings (lines 180-181) raise on invalid input, modelled as an
error result. -/
def parseExtractedEvents (extracted ssStr seStr : List Char) :
    Except PyError (List Event) :=
  match strptimeMDY ssStr with
  | none => .error (.valueError strptimeErrMsg)
  | some semStart =>
    match strptimeMDY seStr with
    | none => .error (.valueError strptimeErrMsg)
    | some semEnd =>
      parseLines semStart semEnd (splitChar '\n' (pyStrip extracted))

/-! ## Substring counting and the validator -/

/-- Model of Python `str.count(pat)`: number of non-overlapping occurrences,
scanning left to right (fuel-structured so it reduces in the kernel). -/
def countOccAux (pat : List Char) : Nat → List Char → Nat
  | 0, _ => 0
  | _, [] => 0
  | fuel + 1, c :: t =>
    if pat ≠ [] ∧ pat.isPrefixOf (c :: t) then
      1 + countOccAux pat fuel ((c :: t).drop pat.length)
    else countOccAux pat fuel t

/-- Model of Python `str.count(pat)` for a non-empty `pat`. -/
def countOcc (pat s : List Char) : Nat := countOccAux pat s.length s

/-- The four `required_elements` of `validate_ics_content` (source lines
548-553), in order. -/
def requiredElements : List (List Char) :=
  [cl ("BEGIN:VCALENDAR"), cl ("VERSION:2.0"), cl ("CALSCALE:GREGORIAN"),
   cl ("END:VCALENDAR")]

/-- The event-block markers. -/
def beginMark : List Char := cl ("BEGIN:VEVENT")

/-- The closing event-block marker. -/
def endMark : List Char := cl ("END:VEVENT")

/-- `ValueError` message for a missing required element (source line 557). -/
def missingElemMsg (e : List Char) : List Char :=
  cl ("Invalid .ics file: missing required element '") ++ e ++ cl ("'")

/-- `ValueError` message for the missing-events check (source line 561). -/
def noEventsFoundMsg : List Char := cl ("Invalid .ics file: no events found")

/-- `ValueError` message for mismatched event tags (source line 566). -/
def mismatchedMsg : List Char := cl ("Invalid .ics file: mismatched VEVENT tags")

/-- Model of `validate_ics_content(ics_content)` (source lines 538-568):
in order, each required element must occur as a substring, at least one
`BEGIN:VEVENT` and one `END:VEVENT` must occur, and their counts must agree;
the first failing check raises `ValueError` with its message. -/
def validateIcsContent (s : List Char) : Except PyError Unit :=
  match requiredElements.find? (fun e => !isSubstrOf e s) with
  | some e => .error (.valueError (missingElemMsg e))
  | none =>
    if !isSubstrOf beginMark s || !isSubstrOf endMark s then
      .error (.valueError noEventsFoundMsg)
    else if countOcc beginMark s ≠ countOcc endMark s then
      .error (.valueError mismatchedMsg)
    else .ok ()

/-! ## The renderer `generate_ics_file` -/

/-- `ValueError` message raised when no events could be parsed (source line
448). -/
def noValidEventsMsg : List Char :=
  cl ("No valid events could be parsed from extraction")

/-- The date used by an event's `DTSTART` (the stored single date, or the
computed first occurrence of a recurring event). -/
def evDate (ev : Event) : Date :=
  match ev.kind with
  | .single d => d
  | .recurring _ sd _ => sd

/-- The event block of one event (body of the `for event in events` loop,
source lines 473-522).  `fullClassName` is the unescaped
`f"{class_name} ({section_number})"`; `uid` models the `uuid.uuid4()` value
drawn for this event; `dtstamp` the shared render timestamp.  Fallible steps:
`parse_time` (can raise `ValueError`) and the all-day
`+ timedelta(days=1)` (can raise `OverflowError`). -/
def renderEvent (fullClassName untilDate dtstamp uid : List Char) (ev : Event) :
    Except PyError (List (List Char)) :=
  let eventName := escapeIcsText ev.name
  let location := escapeIcsText ev.location
  let summary := escapeIcsText fullClassName ++ cl (" - ") ++ eventName
  match parseTime ev.time with
  | none => .error (.valueError (cl ("invalid literal for int() with base 10")))
  | some timeRes =>
    let headLines : List (List Char) :=
      [cl ("BEGIN:VEVENT"),
       cl ("UID:") ++ uid ++ cl ("@aggieace.converter"),
       cl ("DTSTAMP:") ++ dtstamp,
       cl ("SUMMARY:") ++ summary,
       cl ("LOCATION:") ++ location,
       cl ("STATUS:CONFIRMED")]
    match ev.kind with
    | .recurring days sd _ =>
      let dateLines : Except PyError (List (List Char)) :=
        match timeRes with
        | .allDay =>
          match nextDay sd with
          | none => .error .overflow
          | some nd =>
            .ok [cl ("DTSTART;VALUE=DATE:") ++ fmtDate sd,
                 cl ("DTEND;VALUE=DATE:") ++ fmtDate nd]
        | .timed st et =>
          .ok [cl ("DTSTART:") ++ fmtDate sd ++ cl ("T") ++ st,
               cl ("DTEND:") ++ fmtDate sd ++ cl ("T") ++ et]
      match dateLines with
      | .error e => .error e
      | .ok dls =>
        .ok (headLines ++ dls ++
          [cl ("RRULE:FREQ=WEEKLY;BYDAY=") ++ joinSep (cl (",")) days ++
             cl (";UNTIL=") ++ untilDate,
           cl ("DESCRIPTION:Recurring ") ++ eventName,
           cl ("END:VEVENT")])
    | .single d =>
      let dateLines : Except PyError (List (List Char)) :=
        match timeRes with
        | .allDay =>
          match nextDay d with
          | none => .error .overflow
          | some nd =>
            .ok [cl ("DTSTART;VALUE=DATE:") ++ fmtDate d,
                 cl ("DTEND;VALUE=DATE:") ++ fmtDate nd]
        | .timed st et =>
          .ok [cl ("DTSTART:") ++ fmtDate d ++ cl ("T") ++ st,
               cl ("DTEND:") ++ fmtDate d ++ cl ("T") ++ et]
      match dateLines with
      | .error e => .error e
      | .ok dls =>
        .ok (headLines ++ dls ++
          [cl ("DESCRIPTION:") ++ eventName,
           cl ("END:VEVENT")])

/-- The render loop over all events; `uids idx` models the fresh
`uuid.uuid4()` of the event at position `idx`. -/
def renderEvents (fullClassName untilDate dtstamp : List Char)
    (uids : Nat → List Char) : List Event → Nat → Except PyError (List (List Char))
  | [], _ => .ok []
  | ev :: rest, idx =>
    match renderEvent fullClassName untilDate dtstamp (uids idx) ev with
    | .error e => .error e
    | .ok lines =>
      match renderEvents fullClassName untilDate dtstamp uids rest (idx + 1) with
      | .error e => .error e
      | .ok more => .ok (lines ++ more)

/-- Model of `generate_ics_file(extracted_events, class_name, section_number,
semester_start, semester_end, timezone)` (source lines 422-535).  `dtstamp`
models `datetime.utcnow().strftime('%Y%m%dT%H%M%SZ')` and `uids` the stream
of `uuid.uuid4()` values — both injected at render time and otherwise
unconstrained.  Steps, in source order: parse the events, fail when none
parsed, re-parse the semester end for the `UNTIL` value, emit the header,
one block per event, the footer, join with CRLF, validate. -/
def generateIcsFile (extracted clsName sectionNumber ssStr seStr tz
    dtstamp : List Char) (uids : Nat → List Char) : Except PyError (List Char) :=
  match parseExtractedEvents extracted ssStr seStr with
  | .error e => .error e
  | .ok events =>
    if events.isEmpty then .error (.valueError noValidEventsMsg)
    else
      let fullClassName := clsName ++ cl (" (") ++ sectionNumber ++ cl (")")
      match strptimeMDY seStr with
      | none => .error (.valueError strptimeErrMsg)
      | some semEnd =>
        let untilDate := fmtDate semEnd ++ cl ("T235959")
        let headerLines : List (List Char) :=
          [cl ("BEGIN:VCALENDAR"),
           cl ("VERSION:2.0"),
           cl ("CALSCALE:GREGORIAN"),
           cl ("PRODID:-//AggieAce//Syllabus Converter//EN"),
           cl ("X-WR-TIMEZONE:") ++ tz,
           cl ("X-WR-CALNAME:") ++ escapeIcsText fullClassName]
        match renderEvents fullClassName untilDate dtstamp uids events 0 with
        | .error e => .error e
        | .ok eventLines =>
          let icsLines := headerLines ++ eventLines ++ [cl ("END:VCALENDAR")]
          let content := joinSep (cl ("\r\n")) icsLines
          match validateIcsContent content with
          | .error e => .error e
          | .ok _ => .ok content

/-! ## Helper lemmas: characters, strip, split -/

theorem pyLower_eq_colon {c : Char} (h : pyLower c = ':') : c = ':' := by
  unfold pyLower at h
  cases hf : lowerPairs.find? fun p => p.1 == c with
  | none => rw [hf] at h; simpa using h
  | some p =>
    rw [hf] at h
    replace h : p.2 = ':' := h
    have hmem := List.mem_of_find?_eq_some hf
    have : ∀ q ∈ lowerPairs, q.2 ≠ ':' := by decide
    exact absurd h (this p hmem)

theorem pyLower_isDigit {c : Char} (h : (pyLower c).isDigit = true) :
    c.isDigit = true := by
  unfold pyLower at h
  cases hf : lowerPairs.find? fun p => p.1 == c with
  | none => rw [hf] at h; simpa using h
  | some p =>
    rw [hf] at h
    replace h : p.2.isDigit = true := h
    have hmem := List.mem_of_find?_eq_some hf
    have : ∀ q ∈ lowerPairs, q.2.isDigit = false := by decide
    rw [this p hmem] at h
    cases h

theorem mem_pyStrip {c : Char} {l : List Char} (h : c ∈ pyStrip l) : c ∈ l := by
  unfold pyStrip at h
  rw [List.mem_reverse] at h
  have h2 := (List.dropWhile_sublist (l := (l.dropWhile isPyWs).reverse)
    (p := isPyWs)).mem h
  rw [List.mem_reverse] at h2
  exact (List.dropWhile_sublist (l := l) (p := isPyWs)).mem h2

theorem splitChar_ne_nil (sep : Char) (l : List Char) : splitChar sep l ≠ [] := by
  cases l with
  | nil => simp [splitChar]
  | cons c t =>
    simp only [splitChar]
    split
    · simp
    · split <;> simp

theorem mem_of_mem_splitChar {sep c : Char} {l : List Char} :
    ∀ {p : List Char}, p ∈ splitChar sep l → c ∈ p → c ∈ l := by
  induction l with
  | nil =>
    intro p hp hc
    simp [splitChar] at hp
    subst hp; cases hc
  | cons a t ih =>
    intro p hp hc
    simp only [splitChar] at hp
    split at hp
    · next heq => exact absurd heq (splitChar_ne_nil sep t)
    · next h r heq =>
      split at hp
      · rcases List.mem_cons.mp hp with rfl | hp2
        · cases hc
        · exact List.mem_cons_of_mem a (ih (heq ▸ hp2) hc)
      · rcases List.mem_cons.mp hp with rfl | hp2
        · rcases List.mem_cons.mp hc with rfl | hc2
          · exact List.mem_cons_self _ _
          · exact List.mem_cons_of_mem a (ih (heq ▸ List.mem_cons_self h r) hc2)
        · exact List.mem_cons_of_mem a (ih (heq ▸ List.mem_cons_of_mem h hp2) hc)

theorem sep_not_mem_splitChar {sep : Char} {l : List Char} :
    ∀ {p : List Char}, p ∈ splitChar sep l → sep ∉ p := by
  induction l with
  | nil =>
    intro p hp
    simp [splitChar] at hp
    subst hp; simp
  | cons a t ih =>
    intro p hp
    simp only [splitChar] at hp
    split at hp
    · next heq => exact absurd heq (splitChar_ne_nil sep t)
    · next h r heq =>
      split at hp
      · rcases List.mem_cons.mp hp with rfl | hp2
        · simp
        · exact ih (heq ▸ hp2)
      · next hne =>
        rcases List.mem_cons.mp hp with rfl | hp2
        · intro hmem
          rcases List.mem_cons.mp hmem with h1 | hc2
          · exact hne h1.symm
          · exact ih (heq ▸ List.mem_cons_self h r) hc2
        · exact ih (heq ▸ List.mem_cons_of_mem h hp2)

/-! ## C8: idempotence of `find_first_occurrence` -/

theorem ffoLoop_ok_cases (targets : List Nat) (orig : Date) :
    ∀ (n : Nat) (cur d : Date), ffoLoop targets orig n cur = .ok d →
      weekday d ∈ targets ∨ d = orig := by
  intro n
  induction n with
  | zero =>
    intro cur d h
    simp only [ffoLoop] at h
    injection h with h2
    right
    exact h2.symm
  | succ k ih =>
    intro cur d h
    simp only [ffoLoop] at h
    split at h
    · next hw =>
      left
      cases h
      exact hw
    · split at h
      · cases h
      · next c' heq => exact ih c' d h

/-- C8: `find_first_occurrence` is idempotent — whenever it returns a date
`d` for some start date and day-code list, running it again from `d` with the
same day list returns `d` again. -/
theorem c8_find_first_occurrence_idempotent (startDate d : Date)
    (days : List (List Char))
    (h : findFirstOccurrence startDate days = .ok d) :
    findFirstOccurrence d days = .ok d := by
  unfold findFirstOccurrence at h ⊢
  by_cases hemp : (ffoTargets days).isEmpty
  · rw [if_pos hemp] at h ⊢
  · rw [if_neg hemp] at h ⊢
    rcases ffoLoop_ok_cases (ffoTargets days) startDate 7 startDate d h with hw | rfl
    · show ffoLoop (ffoTargets days) d (6 + 1) d = .ok d
      rw [ffoLoop, if_pos hw]
    · exact h

deriving instance DecidableEq for Except

/-- Witness for C8 at a concrete input: the semester start 08/25/2025 is a
Monday, so the first MO/WE occurrence is 08/25/2025 itself, and re-running
from it is stable. -/
theorem c8_find_first_occurrence_idempotent_witness :
    findFirstOccurrence ⟨2025, 8, 25⟩ [cl ("MO"), cl ("WE")] = .ok ⟨2025, 8, 25⟩ :=
  c8_find_first_occurrence_idempotent ⟨2025, 8, 25⟩ ⟨2025, 8, 25⟩
    [cl ("MO"), cl ("WE")] (by decide)

/-! ## C6: empty event list fails the render -/

/-- C6: when zero events were parsed, `generate_ics_file` raises (with the
`No valid events could be parsed from extraction` message) and never produces
a header-only calendar document. -/
theorem c6_empty_events_error (extracted clsName sectionNumber ssStr seStr tz
    dtstamp : List Char) (uids : Nat → List Char)
    (h : parseExtractedEvents extracted ssStr seStr = .ok []) :
    generateIcsFile extracted clsName sectionNumber ssStr seStr tz dtstamp uids =
      .error (.valueError noValidEventsMsg) := by
  unfold generateIcsFile
  rw [h]
  rfl

/-- Witness for C6: an extraction blob with no delimited line parses to the
empty event list and the render fails. -/
theorem c6_empty_events_error_witness :
    generateIcsFile (cl ("hello world")) (cl ("CSCE 311")) (cl ("546"))
      (cl ("08/25/2025")) (cl ("12/16/2025")) (cl ("America/Chicago"))
      (cl ("20250101T000000Z")) (fun _ => cl ("u0")) =
      .error (.valueError noValidEventsMsg) :=
  c6_empty_events_error _ _ _ _ _ _ _ _ (by rfl)

/-! ## C2: the end-to-end scenario (actual behavior of the code) -/

/-- C2: evaluating `parse_extracted_events` on exactly the three scenario
lines with window 08/25/2025–12/16/2025.  The code produces one recurring
event and two single events (one timed, one all-day, whose all-day `DTEND`
date is 12/13/2025 = 12/12/2025 + 1 day), and the recurring event's first
occurrence is 08/25/2025 with recurrence end 12/16/2025 — but its weekday
code list is `[MO, WE, TH, FR, SA]`, not `{MO, WE, FR}`: the single-letter
`day_map` keys `'r' ↦ TH` and `'s' ↦ SA` substring-match inside `"friday"`
and `"wednesday"`. -/
theorem c2_end_to_end_scenario :
    parseExtractedEvents
        (cl ("Lecture | Monday-Wednesday-Friday | 11:30-12:30 | ROOM101\nMidterm Exam | 10/15/2025 | 19:00-21:00 | ROOM101\nFinal Exam | 12/12/2025 | all-day | TBA"))
        (cl ("08/25/2025")) (cl ("12/16/2025")) =
      .ok
        [⟨cl ("Lecture"),
          .recurring [cl ("MO"), cl ("WE"), cl ("TH"), cl ("FR"), cl ("SA")]
            ⟨2025, 8, 25⟩ ⟨2025, 12, 16⟩,
          cl ("11:30-12:30"), cl ("ROOM101")⟩,
         ⟨cl ("Midterm Exam"), .single ⟨2025, 10, 15⟩, cl ("19:00-21:00"),
          cl ("ROOM101")⟩,
         ⟨cl ("Final Exam"), .single ⟨2025, 12, 12⟩, cl ("all-day"),
          cl ("TBA")⟩] ∧
      parseTime (cl ("11:30-12:30")) =
        some (.timed (cl ("113000")) (cl ("123000"))) ∧
      parseTime (cl ("all-day")) = some .allDay ∧
      nextDay ⟨2025, 12, 12⟩ = some ⟨2025, 12, 13⟩ :=
  ⟨by rfl, by rfl, by rfl, by rfl⟩

/-! ## C10: counterexample — `datetime` overflow in the weekday scan -/

/-- C10 counterexample: both semester strings are the valid MM/DD/YYYY date
12/31/9999 (accepted by `datetime.strptime`), yet a line naming a weekday
makes `parse_extracted_events` raise: 12/31/9999 is a Friday, so the
first-occurrence scan for Monday executes `current += timedelta(days=1)`,
which overflows past `datetime.max`. -/
theorem c10_counterexample :
    strptimeMDY (cl ("12/31/9999")) = some ⟨9999, 12, 31⟩ ∧
    parseExtractedEvents (cl ("Lecture | Monday | 10:00 | X"))
      (cl ("12/31/9999")) (cl ("12/31/9999")) = .error .overflow :=
  ⟨by rfl, by rfl⟩

/-! ## C1: year inference for month/day tokens -/

theorem strptimeMD_split {t : List Char} {dt : Date}
    (h : strptimeMD t = some dt) :
    (∃ ms ds, splitChar '/' t = [ms, ds]) ∧ validDate dt ∧ dt.year = 1900 := by
  unfold strptimeMD at h
  split at h
  · next ms ds heq =>
    split at h
    · split at h
      · next hv =>
        injection h with h2
        subst h2
        exact ⟨⟨ms, ds, heq⟩, hv, rfl⟩
      · cases h
    · cases h
  · cases h

theorem strptimeMDY_of_two {t ms ds : List Char}
    (h : splitChar '/' t = [ms, ds]) : strptimeMDY t = none := by
  unfold strptimeMDY
  rw [h]

theorem daysInMonth_1900_le (y m : Nat) :
    daysInMonth 1900 m ≤ daysInMonth y m := by
  unfold daysInMonth
  have h19 : isLeap 1900 = false := rfl
  rw [h19]
  split_ifs <;> first | omega | simp_all

theorem replaceYear_eq {y m d y' : Nat} (h : validDate ⟨y', m, d⟩) :
    replaceYear ⟨y, m, d⟩ y' = some ⟨y', m, d⟩ := by
  show (if validDate ⟨y', m, d⟩ then some (⟨y', m, d⟩ : Date) else none) =
    some ⟨y', m, d⟩
  rw [if_pos h]

/-- C1 (amended): for every month/day token (no year) accepted by the
`'%m/%d'` format whose month/day falls strictly earlier than the semester
window start's month/day, `parse_date` infers the year as the window's END
year.  (With window 08/25/2025–12/16/2025 the end year is 2025, so `"01/10"`
resolves to 01/10/2025; it resolves to 01/10/2026 exactly when the window
ends in 2026.) -/
theorem c1_mmdd_year_inference (tok : List Char) (m d : Nat) (s e : Date)
    (hs : validDate s) (he : validDate e)
    (hmd : strptimeMD (pyStrip tok) = some ⟨1900, m, d⟩)
    (hlt : m < s.month ∨ (m = s.month ∧ d < s.day)) :
    parseDate tok s e = some ⟨e.year, m, d⟩ := by
  obtain ⟨⟨ms, ds, hsplit⟩, hv1900, -⟩ := strptimeMD_split hmd
  have hm1 : 1 ≤ m := hv1900.2.2.1
  have hm2 : m ≤ 12 := hv1900.2.2.2.1
  have hd1 : 1 ≤ d := hv1900.2.2.2.2.1
  have hd2 : d ≤ daysInMonth 1900 m := hv1900.2.2.2.2.2
  have hvs : validDate ⟨s.year, m, d⟩ :=
    ⟨hs.1, hs.2.1, hm1, hm2, hd1, le_trans hd2 (daysInMonth_1900_le s.year m)⟩
  have hve : validDate ⟨e.year, m, d⟩ :=
    ⟨he.1, he.2.1, hm1, hm2, hd1, le_trans hd2 (daysInMonth_1900_le e.year m)⟩
  have htry : tryMD (pyStrip tok) s e = some ⟨e.year, m, d⟩ := by
    have e1 : replaceYear ⟨1900, m, d⟩ s.year = some ⟨s.year, m, d⟩ :=
      replaceYear_eq hvs
    have e2 : replaceYear ⟨s.year, m, d⟩ e.year = some ⟨e.year, m, d⟩ :=
      replaceYear_eq hve
    have hdlt : dateLt ⟨s.year, m, d⟩ s := Or.inr ⟨rfl, hlt⟩
    simp only [tryMD, hmd, e1, e2, if_pos hdlt]
  unfold parseDate parseDateStripped
  rw [strptimeMDY_of_two hsplit, htry]

/-- Witness for C1 at a year-spanning window: with window
08/25/2025–05/16/2026 the token `"01/10"` resolves to 01/10/2026, the
window's end year. -/
theorem c1_mmdd_year_inference_witness :
    parseDate (cl ("01/10")) ⟨2025, 8, 25⟩ ⟨2026, 5, 16⟩ = some ⟨2026, 1, 10⟩ :=
  c1_mmdd_year_inference (cl ("01/10")) 1 10 ⟨2025, 8, 25⟩ ⟨2026, 5, 16⟩
    (by decide) (by decide) (by rfl) (by decide)

/-- C1 counterexample to the claim's concrete example: with window
08/25/2025–12/16/2025 (whose end year is 2025, not 2026) the token `"01/10"`
resolves to 01/10/2025 — not to 01/10/2026 as the claim states. -/
theorem c1_counterexample :
    parseDate (cl ("01/10")) ⟨2025, 8, 25⟩ ⟨2025, 12, 16⟩ =
      some ⟨2025, 1, 10⟩ ∧
    ((⟨2025, 1, 10⟩ : Date) ≠ ⟨2026, 1, 10⟩) :=
  ⟨by rfl, by decide⟩

/-! ## C3 / C7: behavior of `parse_time` -/

theorem pyInt_of_pyIsDigit {l : List Char} (h : pyIsDigit l = true) :
    pyInt l = some (digitsToNat l) := by
  unfold pyIsDigit at h
  rcases Bool.and_eq_true_iff.mp h with ⟨h1, h2⟩
  unfold pyInt
  rw [if_pos]
  refine ⟨?_, h2⟩
  intro hnil
  subst hnil
  simp at h1

theorem parseStartTok_total {st : List Char} (h : ':' ∉ st) :
    ∃ p, parseStartTok st = some p := by
  unfold parseStartTok
  rw [if_neg h]
  by_cases hd : pyIsDigit st = true
  · rw [if_pos hd, pyInt_of_pyIsDigit hd]
    exact ⟨_, rfl⟩
  · rw [if_neg hd]
    exact ⟨_, rfl⟩

theorem parseEndTok_total {e? : Option (List Char)} {sh sm : Nat}
    (h : ∀ et, e? = some et → ':' ∉ et) :
    ∃ p, parseEndTok e? sh sm = some p := by
  cases e? with
  | none => exact ⟨_, rfl⟩
  | some et =>
    have hc : ':' ∉ et := h et rfl
    simp only [parseEndTok]
    rw [if_neg (fun hand => hc hand.2)]
    by_cases hd : et ≠ [] ∧ pyIsDigit et = true
    · rw [if_pos hd, pyInt_of_pyIsDigit hd.2]
      exact ⟨_, rfl⟩
    · rw [if_neg hd]
      exact ⟨_, rfl⟩

theorem mem_cleanTime {c : Char} {ts : List Char} (h : c ∈ cleanTime ts) :
    c ∈ ts ∧ (c.isDigit = true ∨ c = ':' ∨ c = '-') := by
  unfold cleanTime at h
  rcases List.mem_filter.mp h with ⟨h1, h2⟩
  refine ⟨h1, ?_⟩
  rcases Bool.or_eq_true_iff.mp h2 with h3 | h3
  · rcases Bool.or_eq_true_iff.mp h3 with h4 | h4
    · exact Or.inl h4
    · exact Or.inr (Or.inl (by simpa using h4))
  · exact Or.inr (Or.inr (by simpa using h3))

theorem colon_not_mem_processed {t : List Char} (h : ':' ∉ t) :
    ':' ∉ cleanTime ((pyStrip t).map pyLower) := by
  intro hmem
  rcases (mem_cleanTime hmem).1 |> List.mem_map.mp with ⟨c0, hc0, heq⟩
  exact h (mem_pyStrip (pyLower_eq_colon heq ▸ hc0))

theorem splitStartEnd_fst_sub {cleaned : List Char} {c : Char}
    (h : c ∈ (splitStartEnd cleaned).1) : c ∈ cleaned := by
  unfold splitStartEnd at h
  split at h
  · split at h
    · next heq => exact mem_of_mem_splitChar (heq ▸ List.mem_cons_self _ _) (mem_pyStrip h)
    · next heq => exact mem_of_mem_splitChar (heq ▸ List.mem_cons_self _ _) (mem_pyStrip h)
    · cases h
  · exact h

theorem splitStartEnd_snd_sub {cleaned et : List Char} {c : Char}
    (h : (splitStartEnd cleaned).2 = some et) (hc : c ∈ et) : c ∈ cleaned := by
  unfold splitStartEnd at h
  split at h
  · split at h
    · next heq =>
      injection h with h2
      subst h2
      exact mem_of_mem_splitChar
        (heq ▸ List.mem_cons_of_mem _ (List.mem_cons_self _ _)) (mem_pyStrip hc)
    · cases h
    · cases h
  · cases h

theorem splitStartEnd_fst_no_sep {cleaned : List Char}
    (hin : '-' ∈ cleaned) : ∀ c ∈ (splitStartEnd cleaned).1, c ≠ '-' := by
  intro c hmem
  unfold splitStartEnd at hmem
  rw [if_pos hin] at hmem
  split at hmem
  · next heq =>
    exact fun hcc =>
      sep_not_mem_splitChar (heq ▸ List.mem_cons_self _ _)
        (hcc ▸ mem_pyStrip hmem)
  · next heq =>
    exact fun hcc =>
      sep_not_mem_splitChar (heq ▸ List.mem_cons_self _ _)
        (hcc ▸ mem_pyStrip hmem)
  · cases hmem

theorem splitStartEnd_snd_no_sep {cleaned et : List Char}
    (h : (splitStartEnd cleaned).2 = some et) : '-' ∉ et := by
  unfold splitStartEnd at h
  split at h
  · split at h
    · next heq =>
      injection h with h2
      subst h2
      exact fun hcc =>
        sep_not_mem_splitChar
          (heq ▸ List.mem_cons_of_mem _ (List.mem_cons_self _ _))
          (mem_pyStrip hcc)
    · cases h
    · cases h
  · cases h

/-- C3 (amended): `parse_time` never raises on any token that contains no
colon; and any token that contains no digits and no colon and does not
resolve to all-day (i.e. is non-empty after stripping and contains neither
all-day phrase) resolves to start `00:00`, end `01:00`.  (The original
"never raises" claim is refuted by the token `":"`, which reaches
`int('')`.) -/
theorem c3_parse_time_no_colon (t : List Char) (hc : ':' ∉ t) :
    (∃ r, parseTime t = some r) ∧
    (isAllDayTok ((pyStrip t).map pyLower) = false →
      (∀ c ∈ t, c.isDigit = false) →
      parseTime t = some (.timed (cl ("000000")) (cl ("010000")))) := by
  have hcol := colon_not_mem_processed hc
  constructor
  · unfold parseTime
    by_cases had : isAllDayTok ((pyStrip t).map pyLower) = true
    · rw [if_pos had]
      exact ⟨_, rfl⟩
    · rw [if_neg had]
      have hst : ':' ∉ (splitStartEnd (cleanTime ((pyStrip t).map pyLower))).1 :=
        fun hmem => hcol (splitStartEnd_fst_sub hmem)
      obtain ⟨⟨sh, sm⟩, hpst⟩ := parseStartTok_total hst
      simp only [hpst]
      have hend : ∀ et,
          (splitStartEnd (cleanTime ((pyStrip t).map pyLower))).2 = some et →
          ':' ∉ et :=
        fun et het hmem => hcol (splitStartEnd_snd_sub het hmem)
      obtain ⟨⟨eh, em⟩, hpet⟩ := @parseEndTok_total _ sh sm hend
      simp only [hpet]
      exact ⟨_, rfl⟩
  · intro had hnod
    have hclean : ∀ c ∈ cleanTime ((pyStrip t).map pyLower), c = '-' := by
      intro c hmem
      rcases mem_cleanTime hmem with ⟨hmem2, hd | h3 | h3⟩
      · exfalso
        rcases List.mem_map.mp hmem2 with ⟨c0, hc0, heq⟩
        have hdig : c0.isDigit = true := pyLower_isDigit (heq ▸ hd)
        rw [hnod c0 (mem_pyStrip hc0)] at hdig
        cases hdig
      · exact absurd (h3 ▸ hmem) hcol
      · exact h3
    have hst : (splitStartEnd (cleanTime ((pyStrip t).map pyLower))).1 = [] := by
      rw [List.eq_nil_iff_forall_not_mem]
      intro c hcmem
      have hcc : c = '-' := hclean c (splitStartEnd_fst_sub hcmem)
      by_cases hin : '-' ∈ cleanTime ((pyStrip t).map pyLower)
      · exact splitStartEnd_fst_no_sep hin c hcmem hcc
      · exact hin (hcc ▸ splitStartEnd_fst_sub hcmem)
    have hsnd : (splitStartEnd (cleanTime ((pyStrip t).map pyLower))).2 = none ∨
        (splitStartEnd (cleanTime ((pyStrip t).map pyLower))).2 = some [] := by
      rcases hres : (splitStartEnd (cleanTime ((pyStrip t).map pyLower))).2
        with - | et
      · exact Or.inl rfl
      · right
        have het : et = [] := by
          rw [List.eq_nil_iff_forall_not_mem]
          intro c hcmem
          have hcc : c = '-' := hclean c (splitStartEnd_snd_sub hres hcmem)
          exact splitStartEnd_snd_no_sep hres (hcc ▸ hcmem)
        rw [het]
    unfold parseTime
    rw [if_neg (fun hx => by rw [had] at hx; cases hx)]
    rw [hst]
    rw [show parseStartTok [] = some (0, 0) from rfl]
    rcases hsnd with h0 | h0 <;> rw [h0]
    · rfl
    · rfl

/-- C3 counterexample to the original claim: the token `":"` is non-empty,
contains no digits (and is not an all-day phrase), yet `parse_time` raises
(`int('')` on the empty hour field) instead of returning the 00:00/01:00
fallback. -/
theorem c3_counterexample :
    parseTime (cl (":")) = none ∧
    (∀ c ∈ cl (":"), c.isDigit = false) ∧
    isAllDayTok ((pyStrip (cl (":"))).map pyLower) = false :=
  ⟨by rfl, by decide, by rfl⟩

/-- Witness for C3 at a concrete input: the digit-free, colon-free token
`"noon"` resolves to the documented 00:00/01:00 fallback. -/
theorem c3_parse_time_no_colon_witness :
    parseTime (cl ("noon")) = some (.timed (cl ("000000")) (cl ("010000"))) :=
  (c3_parse_time_no_colon (cl ("noon")) (by decide)).2 (by rfl) (by decide)

/-- The end sub-token `parse_time` extracts from a time token (None when no
hyphen is present). -/
def endTokOf (timeStr : List Char) : Option (List Char) :=
  (splitStartEnd (cleanTime ((pyStrip timeStr).map pyLower))).2

/-- C7: for every timed token that declares a start but no end (no end
sub-token, or an empty one after a trailing hyphen), `parse_time` sets the
end hour to the start hour plus one and preserves the start minute; the end
hour is not wrapped, so the rendered `HHMMSS` field may exceed 23 (witness:
start 23:30 renders end hour 24). -/
theorem c7_default_end (t a b : List Char)
    (hend : endTokOf t = none ∨ endTokOf t = some [])
    (h : parseTime t = some (.timed a b)) :
    ∃ sh sm, a = fmtHM sh sm ∧ b = fmtHM (sh + 1) sm := by
  unfold parseTime at h
  split at h
  · exact absurd h (by simp)
  · split at h
    · cases h
    · next sh sm hst =>
      split at h
      · cases h
      · next eh em hpe =>
        injection h with h2
        injection h2 with ha hb
        unfold endTokOf at hend
        rcases hend with h0 | h0 <;> rw [h0] at hpe
        · rw [show parseEndTok none sh sm = some (sh + 1, sm) from rfl] at hpe
          injection hpe with h3
          injection h3 with h4 h5
          exact ⟨sh, sm, ha.symm, by rw [← hb, ← h4, ← h5]⟩
        · rw [show parseEndTok (some []) sh sm = some (sh + 1, sm) from rfl] at hpe
          injection hpe with h3
          injection h3 with h4 h5
          exact ⟨sh, sm, ha.symm, by rw [← hb, ← h4, ← h5]⟩

/-- Witness for C7: the token `"23:30"` declares no end; the result is start
`233000` and end `243000` — the end hour 24 exceeds 23 in the rendered
field. -/
theorem c7_default_end_witness :
    (∃ sh sm, cl ("233000") = fmtHM sh sm ∧ cl ("243000") = fmtHM (sh + 1) sm) ∧
    parseTime (cl ("23:30")) = some (.timed (cl ("233000")) (cl ("243000"))) :=
  ⟨c7_default_end (cl ("23:30")) (cl ("233000")) (cl ("243000"))
      (Or.inl (by rfl)) (by rfl),
   by rfl⟩

/-! ## C9: weekday detection produces duplicate-free codes -/

/-- The seven weekday codes. -/
def weekdayCodes : List (List Char) :=
  [cl ("MO"), cl ("TU"), cl ("WE"), cl ("TH"), cl ("FR"), cl ("SA"), cl ("SU")]

theorem detect_foldl_invariant (s : List Char) :
    ∀ (dm : List (List Char × List Char)) (acc : List (List Char)),
      acc.Nodup →
      (dm.foldl (detectStep s) acc).Nodup ∧
        ∀ c ∈ dm.foldl (detectStep s) acc, c ∈ acc ∨ c ∈ dm.map Prod.snd := by
  intro dm
  induction dm with
  | nil =>
    intro acc h
    exact ⟨h, fun c hc => Or.inl hc⟩
  | cons p dm' ih =>
    intro acc h
    simp only [List.foldl_cons]
    have hacc' : (detectStep s acc p).Nodup ∧
        ∀ c ∈ detectStep s acc p, c ∈ acc ∨ c = p.2 := by
      unfold detectStep
      by_cases hcond : (isSubstrOf p.1 s && !(acc.contains p.2)) = true
      · rw [if_pos hcond]
        rcases Bool.and_eq_true_iff.mp hcond with ⟨-, h2⟩
        have hnotin : p.2 ∉ acc := by
          intro hmem
          rw [Bool.not_eq_true'] at h2
          have hcont : acc.contains p.2 = true := by
            simpa using List.elem_eq_true_of_mem hmem
          rw [h2] at hcont
          cases hcont
        constructor
        · rw [List.nodup_append]
          exact ⟨h, List.nodup_singleton _, by simpa using hnotin⟩
        · intro c hc
          rcases List.mem_append.mp hc with h3 | h3
          · exact Or.inl h3
          · exact Or.inr (by simpa using h3)
      · rw [if_neg hcond]
        exact ⟨h, fun c hc => Or.inl hc⟩
    obtain ⟨h1, h2⟩ := ih (detectStep s acc p) hacc'.1
    refine ⟨h1, fun c hc => ?_⟩
    rcases h2 c hc with h3 | h3
    · rcases hacc'.2 c h3 with h4 | h4
      · exact Or.inl h4
      · exact Or.inr (by rw [h4]; exact List.mem_cons_self _ _)
    · exact Or.inr (List.mem_cons_of_mem _ h3)

theorem detectDays_nodup_codes (s : List Char) :
    (detectDays s).Nodup ∧ ∀ c ∈ detectDays s, c ∈ weekdayCodes := by
  obtain ⟨h1, h2⟩ := detect_foldl_invariant s dayMap [] List.nodup_nil
  refine ⟨h1, fun c hc => ?_⟩
  rcases h2 c hc with h3 | h3
  · cases h3
  · have hsub : ∀ x ∈ dayMap.map Prod.snd, x ∈ weekdayCodes := by decide
    exact hsub c h3

theorem classifyLine_recurring_inv {semStart semEnd : Date}
    {n d t l : List Char} {ev : Event}
    (h : classifyLine semStart semEnd n d t l = .ok (some ev)) :
    ∀ days sd ed, ev.kind = .recurring days sd ed →
      days.Nodup ∧ ∀ c ∈ days, c ∈ weekdayCodes := by
  unfold classifyLine at h
  split at h
  · split at h
    · cases h
    · injection h with h1
      injection h1 with h2
      subst h2
      intro days sd ed hk
      injection hk with hd hs he
      subst hd
      exact detectDays_nodup_codes _
  · split at h
    · injection h with h1
      injection h1 with h2
      subst h2
      intro days sd ed hk
      cases hk
    · injection h with h1
      cases h1

theorem parseLine_recurring_inv {semStart semEnd : Date} {rawLine : List Char}
    {ev : Event} (h : parseLine semStart semEnd rawLine = .ok (some ev)) :
    ∀ days sd ed, ev.kind = .recurring days sd ed →
      days.Nodup ∧ ∀ c ∈ days, c ∈ weekdayCodes := by
  unfold parseLine at h
  split at h
  · injection h with h1
    cases h1
  · split at h
    · injection h with h1
      cases h1
    · exact classifyLine_recurring_inv h

theorem parseLines_mem {semStart semEnd : Date} :
    ∀ (lns : List (List Char)) (evs : List Event),
      parseLines semStart semEnd lns = .ok evs →
      ∀ ev ∈ evs, ∃ l, parseLine semStart semEnd l = .ok (some ev) := by
  intro lns
  induction lns with
  | nil =>
    intro evs h ev hmem
    injection h with h1
    subst h1
    cases hmem
  | cons l rest ih =>
    intro evs h ev hmem
    unfold parseLines at h
    split at h
    · cases h
    · next ev? heq =>
      split at h
      · cases h
      · next revs heq2 =>
        injection h with h1
        subst h1
        cases ev? with
        | none => exact ih revs heq2 ev hmem
        | some e0 =>
          rcases List.mem_cons.mp hmem with rfl | hmem2
          · exact ⟨l, heq⟩
          · exact ih revs heq2 ev hmem2

theorem parseExtractedEvents_mem {extracted ssStr seStr : List Char}
    {evs : List Event}
    (h : parseExtractedEvents extracted ssStr seStr = .ok evs) :
    ∀ ev ∈ evs, ∃ semStart semEnd l,
      strptimeMDY ssStr = some semStart ∧ strptimeMDY seStr = some semEnd ∧
      parseLine semStart semEnd l = .ok (some ev) := by
  unfold parseExtractedEvents at h
  split at h
  · cases h
  · next semStart heq1 =>
    split at h
    · cases h
    · next semEnd heq2 =>
      intro ev hmem
      obtain ⟨l, hl⟩ := parseLines_mem _ evs h ev hmem
      exact ⟨semStart, semEnd, l, heq1, heq2, hl⟩

/-- C9: for every date token the weekday-detection step produces a
duplicate-free list of codes drawn from {MO,TU,WE,TH,FR,SA,SU}; and this
invariant holds of the `days` list of every recurring event record
constructed by `parse_extracted_events`. -/
theorem c9_weekday_codes_invariant :
    (∀ s : List Char,
      (detectDays s).Nodup ∧ ∀ c ∈ detectDays s, c ∈ weekdayCodes) ∧
    (∀ (extracted ssStr seStr : List Char) (evs : List Event),
      parseExtractedEvents extracted ssStr seStr = .ok evs →
      ∀ ev ∈ evs, ∀ days sd ed, ev.kind = .recurring days sd ed →
        days.Nodup ∧ ∀ c ∈ days, c ∈ weekdayCodes) := by
  refine ⟨detectDays_nodup_codes, ?_⟩
  intro extracted ssStr seStr evs h ev hmem days sd ed hk
  obtain ⟨s1, s2, l, -, -, hl⟩ := parseExtractedEvents_mem h ev hmem
  exact parseLine_recurring_inv hl days sd ed hk

/-- Witness for C9: the `"MWF"` token detects exactly `[MO, WE, FR]`, which
is duplicate-free and drawn from the seven codes. -/
theorem c9_weekday_codes_invariant_witness :
    ([cl ("MO"), cl ("WE"), cl ("FR")] : List (List Char)).Nodup ∧
    ∀ c ∈ [cl ("MO"), cl ("WE"), cl ("FR")], c ∈ weekdayCodes :=
  c9_weekday_codes_invariant.2 (cl ("Lecture | MWF | 10:00 | X"))
    (cl ("08/25/2025")) (cl ("12/16/2025"))
    [⟨cl ("Lecture"),
      .recurring [cl ("MO"), cl ("WE"), cl ("FR")] ⟨2025, 8, 25⟩ ⟨2025, 12, 16⟩,
      cl ("10:00"), cl ("X")⟩]
    (by rfl) _ (List.mem_singleton.mpr rfl) _ _ _ rfl

/-! ## C10: totality of `parse_extracted_events` away from `datetime.max` -/

theorem ffoLoop_total (targets : List Nat) (orig : Date) :
    ∀ (n : Nat) (cur : Date), (iterDays n cur).isSome = true →
      ∃ r, ffoLoop targets orig n cur = .ok r := by
  intro n
  induction n with
  | zero =>
    intro cur _
    exact ⟨orig, rfl⟩
  | succ k ih =>
    intro cur hit
    simp only [ffoLoop]
    by_cases hw : weekday cur ∈ targets
    · rw [if_pos hw]
      exact ⟨cur, rfl⟩
    · rw [if_neg hw]
      simp only [iterDays] at hit
      rcases hnd : nextDay cur with - | c'
      · rw [hnd] at hit
        cases hit
      · rw [hnd] at hit
        exact ih c' hit

theorem findFirstOccurrence_total {semStart : Date}
    (hit : (iterDays 7 semStart).isSome = true) (days : List (List Char)) :
    ∃ r, findFirstOccurrence semStart days = .ok r := by
  unfold findFirstOccurrence
  by_cases hemp : (ffoTargets days).isEmpty
  · rw [if_pos hemp]
    exact ⟨semStart, rfl⟩
  · rw [if_neg hemp]
    exact ffoLoop_total (ffoTargets days) semStart 7 semStart hit

theorem classifyLine_total {semStart semEnd : Date}
    (hit : (iterDays 7 semStart).isSome = true)
    (n d t l : List Char) :
    ∃ r, classifyLine semStart semEnd n d t l = .ok r := by
  unfold classifyLine
  split
  · obtain ⟨r, hr⟩ :=
      findFirstOccurrence_total hit (detectDays (d.map pyLower))
    rw [hr]
    exact ⟨_, rfl⟩
  · rcases hpd : parseDate d semStart semEnd with - | dd
    · exact ⟨_, rfl⟩
    · exact ⟨_, rfl⟩

theorem parseLine_total {semStart semEnd : Date}
    (hit : (iterDays 7 semStart).isSome = true) (rawLine : List Char) :
    ∃ r, parseLine semStart semEnd rawLine = .ok r := by
  unfold parseLine
  split
  · exact ⟨_, rfl⟩
  · rcases hsf : splitFields (pyStrip rawLine) with - | ⟨n, d, t, l⟩
    · exact ⟨_, rfl⟩
    · exact classifyLine_total hit n d t l

theorem parseLines_total {semStart semEnd : Date}
    (hit : (iterDays 7 semStart).isSome = true) :
    ∀ lns : List (List Char), ∃ evs, parseLines semStart semEnd lns = .ok evs := by
  intro lns
  induction lns with
  | nil => exact ⟨[], rfl⟩
  | cons lh rest ih =>
    obtain ⟨r, hr⟩ := @parseLine_total semStart semEnd hit lh
    obtain ⟨evs, hevs⟩ := ih
    cases r with
    | none => exact ⟨evs, by simp only [parseLines, hr, hevs]⟩
    | some ev => exact ⟨ev :: evs, by simp only [parseLines, hr, hevs]⟩

/-- C10 (amended): when the semester start and end strings are valid
MM/DD/YYYY dates and the seven days following the semester start all exist in
`datetime`'s supported range (start no later than 12/24/9999),
`parse_extracted_events` never raises for any extracted-text input: every
uninterpretable line is skipped and a (possibly empty) list is always
returned.  (Without the range proviso the scan
`current += timedelta(days=1)` can raise `OverflowError`; see the
counterexample at start date 12/31/9999.) -/
theorem c10_parse_total (extracted ssStr seStr : List Char) (s e : Date)
    (hss : strptimeMDY ssStr = some s) (hse : strptimeMDY seStr = some e)
    (hit : (iterDays 7 s).isSome = true) :
    ∃ evs, parseExtractedEvents extracted ssStr seStr = .ok evs := by
  unfold parseExtractedEvents
  rw [hss, hse]
  exact parseLines_total hit _

/-- Witness for C10 at a concrete input: a messy extraction blob with window
08/25/2025–12/16/2025 parses without raising. -/
theorem c10_parse_total_witness :
    ∃ evs, parseExtractedEvents
      (cl ("garbage\n- comment\nLecture | Monday | 10:00\nX | TBA | all-day | Y"))
      (cl ("08/25/2025")) (cl ("12/16/2025")) = .ok evs :=
  c10_parse_total _ _ _ ⟨2025, 8, 25⟩ ⟨2025, 12, 16⟩ (by rfl) (by rfl) (by rfl)

/-! ## C5: characterization of `validate_ics_content` -/

theorem isSubstrOf_iff {pat s : List Char} :
    isSubstrOf pat s = true ↔ pat <:+: s := by
  induction s with
  | nil =>
    show pat.isEmpty = true ↔ pat <:+: []
    rw [ List.infix_nil, List.isEmpty_iff]
  | cons c t ih =>
    show (pat.isPrefixOf (c :: t) || isSubstrOf pat t) = true ↔ pat <:+: c :: t
    rw [ List.infix_cons_iff, Bool.or_eq_true, ih, List.isPrefixOf_iff_prefix]

theorem validate_missing_1 {s : List Char}
    (h : isSubstrOf (cl ("BEGIN:VCALENDAR")) s = false) :
    validateIcsContent s =
      .error (.valueError (missingElemMsg (cl ("BEGIN:VCALENDAR")))) := by
  unfold validateIcsContent
  have hf : requiredElements.find? (fun e => !isSubstrOf e s) =
      some (cl ("BEGIN:VCALENDAR")) := by
    simp [requiredElements, List.find?, h]
  rw [hf]

theorem validate_missing_2 {s : List Char}
    (h1 : isSubstrOf (cl ("BEGIN:VCALENDAR")) s = true)
    (h : isSubstrOf (cl ("VERSION:2.0")) s = false) :
    validateIcsContent s =
      .error (.valueError (missingElemMsg (cl ("VERSION:2.0")))) := by
  unfold validateIcsContent
  have hf : requiredElements.find? (fun e => !isSubstrOf e s) =
      some (cl ("VERSION:2.0")) := by
    simp [requiredElements, List.find?, h1, h]
  rw [hf]

theorem validate_missing_3 {s : List Char}
    (h1 : isSubstrOf (cl ("BEGIN:VCALENDAR")) s = true)
    (h2 : isSubstrOf (cl ("VERSION:2.0")) s = true)
    (h : isSubstrOf (cl ("CALSCALE:GREGORIAN")) s = false) :
    validateIcsContent s =
      .error (.valueError (missingElemMsg (cl ("CALSCALE:GREGORIAN")))) := by
  unfold validateIcsContent
  have hf : requiredElements.find? (fun e => !isSubstrOf e s) =
      some (cl ("CALSCALE:GREGORIAN")) := by
    simp [requiredElements, List.find?, h1, h2, h]
  rw [hf]

theorem validate_missing_4 {s : List Char}
    (h1 : isSubstrOf (cl ("BEGIN:VCALENDAR")) s = true)
    (h2 : isSubstrOf (cl ("VERSION:2.0")) s = true)
    (h3 : isSubstrOf (cl ("CALSCALE:GREGORIAN")) s = true)
    (h : isSubstrOf (cl ("END:VCALENDAR")) s = false) :
    validateIcsContent s =
      .error (.valueError (missingElemMsg (cl ("END:VCALENDAR")))) := by
  unfold validateIcsContent
  have hf : requiredElements.find? (fun e => !isSubstrOf e s) =
      some (cl ("END:VCALENDAR")) := by
    simp [requiredElements, List.find?, h1, h2, h3, h]
  rw [hf]

theorem validate_find_none {s : List Char}
    (h1 : isSubstrOf (cl ("BEGIN:VCALENDAR")) s = true)
    (h2 : isSubstrOf (cl ("VERSION:2.0")) s = true)
    (h3 : isSubstrOf (cl ("CALSCALE:GREGORIAN")) s = true)
    (h4 : isSubstrOf (cl ("END:VCALENDAR")) s = true) :
    requiredElements.find? (fun e => !isSubstrOf e s) = none := by
  simp [requiredElements, List.find?, h1, h2, h3, h4]

theorem validate_no_events {s : List Char}
    (h1 : isSubstrOf (cl ("BEGIN:VCALENDAR")) s = true)
    (h2 : isSubstrOf (cl ("VERSION:2.0")) s = true)
    (h3 : isSubstrOf (cl ("CALSCALE:GREGORIAN")) s = true)
    (h4 : isSubstrOf (cl ("END:VCALENDAR")) s = true)
    (h5 : isSubstrOf beginMark s = false ∨ isSubstrOf endMark s = false) :
    validateIcsContent s = .error (.valueError noEventsFoundMsg) := by
  unfold validateIcsContent
  rw [validate_find_none h1 h2 h3 h4]
  have hcond : (!isSubstrOf beginMark s || !isSubstrOf endMark s) = true := by
    rcases h5 with h5 | h5 <;> simp [h5]
  rw [if_pos hcond]

theorem validate_mismatch {s : List Char}
    (h1 : isSubstrOf (cl ("BEGIN:VCALENDAR")) s = true)
    (h2 : isSubstrOf (cl ("VERSION:2.0")) s = true)
    (h3 : isSubstrOf (cl ("CALSCALE:GREGORIAN")) s = true)
    (h4 : isSubstrOf (cl ("END:VCALENDAR")) s = true)
    (h5 : isSubstrOf beginMark s = true) (h6 : isSubstrOf endMark s = true)
    (h7 : countOcc beginMark s ≠ countOcc endMark s) :
    validateIcsContent s = .error (.valueError mismatchedMsg) := by
  unfold validateIcsContent
  rw [validate_find_none h1 h2 h3 h4]
  have hcond : (!isSubstrOf beginMark s || !isSubstrOf endMark s) = false := by
    simp [h5, h6]
  rw [hcond]
  show (if countOcc beginMark s ≠ countOcc endMark s then _ else _) = _
  rw [if_pos h7]

theorem validate_ok {s : List Char}
    (h1 : isSubstrOf (cl ("BEGIN:VCALENDAR")) s = true)
    (h2 : isSubstrOf (cl ("VERSION:2.0")) s = true)
    (h3 : isSubstrOf (cl ("CALSCALE:GREGORIAN")) s = true)
    (h4 : isSubstrOf (cl ("END:VCALENDAR")) s = true)
    (h5 : isSubstrOf beginMark s = true) (h6 : isSubstrOf endMark s = true)
    (h7 : countOcc beginMark s = countOcc endMark s) :
    validateIcsContent s = .ok () := by
  unfold validateIcsContent
  rw [validate_find_none h1 h2 h3 h4]
  have hcond : (!isSubstrOf beginMark s || !isSubstrOf endMark s) = false := by
    simp [h5, h6]
  rw [hcond]
  show (if countOcc beginMark s ≠ countOcc endMark s then _ else _) = _
  rw [if_neg (fun hne => hne h7)]

theorem isSubstrOf_false_of_not {pat s : List Char} (h : ¬ pat <:+: s) :
    isSubstrOf pat s = false := by
  cases hb : isSubstrOf pat s
  · rfl
  · exact absurd (isSubstrOf_iff.mp hb) h

theorem isSubstrOf_true_of {pat s : List Char} (h : pat <:+: s) :
    isSubstrOf pat s = true := isSubstrOf_iff.mpr h

/-- C5: `validate_ics_content` returns normally iff the four mandatory
markers occur as substrings, both event-block markers occur, and the
`BEGIN:VEVENT`/`END:VEVENT` counts agree; each failure raises a `ValueError`
naming the missing or mismatched element, and the checks run in exactly that
order (the reported element is the first failing one). -/
theorem c5_validate_characterization (s : List Char) :
    (validateIcsContent s = .ok () ↔
      ((∀ e ∈ requiredElements, e <:+: s) ∧ beginMark <:+: s ∧ endMark <:+: s ∧
        countOcc beginMark s = countOcc endMark s)) ∧
    (¬ (cl ("BEGIN:VCALENDAR")) <:+: s →
      validateIcsContent s =
        .error (.valueError (missingElemMsg (cl ("BEGIN:VCALENDAR"))))) ∧
    ((cl ("BEGIN:VCALENDAR")) <:+: s → ¬ (cl ("VERSION:2.0")) <:+: s →
      validateIcsContent s =
        .error (.valueError (missingElemMsg (cl ("VERSION:2.0"))))) ∧
    ((cl ("BEGIN:VCALENDAR")) <:+: s → (cl ("VERSION:2.0")) <:+: s →
      ¬ (cl ("CALSCALE:GREGORIAN")) <:+: s →
      validateIcsContent s =
        .error (.valueError (missingElemMsg (cl ("CALSCALE:GREGORIAN"))))) ∧
    ((cl ("BEGIN:VCALENDAR")) <:+: s → (cl ("VERSION:2.0")) <:+: s →
      (cl ("CALSCALE:GREGORIAN")) <:+: s → ¬ (cl ("END:VCALENDAR")) <:+: s →
      validateIcsContent s =
        .error (.valueError (missingElemMsg (cl ("END:VCALENDAR"))))) ∧
    ((∀ e ∈ requiredElements, e <:+: s) →
      (¬ beginMark <:+: s ∨ ¬ endMark <:+: s) →
      validateIcsContent s = .error (.valueError noEventsFoundMsg)) ∧
    ((∀ e ∈ requiredElements, e <:+: s) → beginMark <:+: s → endMark <:+: s →
      countOcc beginMark s ≠ countOcc endMark s →
      validateIcsContent s = .error (.valueError mismatchedMsg)) := by
  refine ⟨?_, ?_, ?_, ?_, ?_, ?_, ?_⟩
  · constructor
    · intro hok
      have p1 : (cl ("BEGIN:VCALENDAR")) <:+: s := by
        by_contra hn
        rw [validate_missing_1 (isSubstrOf_false_of_not hn)] at hok
        cases hok
      have p2 : (cl ("VERSION:2.0")) <:+: s := by
        by_contra hn
        rw [validate_missing_2 (isSubstrOf_true_of p1)
          (isSubstrOf_false_of_not hn)] at hok
        cases hok
      have p3 : (cl ("CALSCALE:GREGORIAN")) <:+: s := by
        by_contra hn
        rw [validate_missing_3 (isSubstrOf_true_of p1) (isSubstrOf_true_of p2)
          (isSubstrOf_false_of_not hn)] at hok
        cases hok
      have p4 : (cl ("END:VCALENDAR")) <:+: s := by
        by_contra hn
        rw [validate_missing_4 (isSubstrOf_true_of p1) (isSubstrOf_true_of p2)
          (isSubstrOf_true_of p3) (isSubstrOf_false_of_not hn)] at hok
        cases hok
      have p5 : beginMark <:+: s := by
        by_contra hn
        rw [validate_no_events (isSubstrOf_true_of p1) (isSubstrOf_true_of p2)
          (isSubstrOf_true_of p3) (isSubstrOf_true_of p4)
          (Or.inl (isSubstrOf_false_of_not hn))] at hok
        cases hok
      have p6 : endMark <:+: s := by
        by_contra hn
        rw [validate_no_events (isSubstrOf_true_of p1) (isSubstrOf_true_of p2)
          (isSubstrOf_true_of p3) (isSubstrOf_true_of p4)
          (Or.inr (isSubstrOf_false_of_not hn))] at hok
        cases hok
      have p7 : countOcc beginMark s = countOcc endMark s := by
        by_contra hn
        rw [validate_mismatch (isSubstrOf_true_of p1) (isSubstrOf_true_of p2)
          (isSubstrOf_true_of p3) (isSubstrOf_true_of p4)
          (isSubstrOf_true_of p5) (isSubstrOf_true_of p6) hn] at hok
        cases hok
      refine ⟨?_, p5, p6, p7⟩
      intro e he
      have : e = cl ("BEGIN:VCALENDAR") ∨ e = cl ("VERSION:2.0") ∨
          e = cl ("CALSCALE:GREGORIAN") ∨ e = cl ("END:VCALENDAR") := by
        simpa [requiredElements] using he
      rcases this with rfl | rfl | rfl | rfl
      · exact p1
      · exact p2
      · exact p3
      · exact p4
    · rintro ⟨hall, h5, h6, h7⟩
      exact validate_ok
        (isSubstrOf_true_of (hall _ (by decide)))
        (isSubstrOf_true_of (hall _ (by decide)))
        (isSubstrOf_true_of (hall _ (by decide)))
        (isSubstrOf_true_of (hall _ (by decide)))
        (isSubstrOf_true_of h5) (isSubstrOf_true_of h6) h7
  · intro hn
    exact validate_missing_1 (isSubstrOf_false_of_not hn)
  · intro hp1 hn
    exact validate_missing_2 (isSubstrOf_true_of hp1) (isSubstrOf_false_of_not hn)
  · intro hp1 hp2 hn
    exact validate_missing_3 (isSubstrOf_true_of hp1) (isSubstrOf_true_of hp2)
      (isSubstrOf_false_of_not hn)
  · intro hp1 hp2 hp3 hn
    exact validate_missing_4 (isSubstrOf_true_of hp1) (isSubstrOf_true_of hp2)
      (isSubstrOf_true_of hp3) (isSubstrOf_false_of_not hn)
  · intro hall h5
    have t1 := isSubstrOf_true_of (hall _ (show (cl ("BEGIN:VCALENDAR")) ∈ requiredElements by decide))
    have t2 := isSubstrOf_true_of (hall _ (show (cl ("VERSION:2.0")) ∈ requiredElements by decide))
    have t3 := isSubstrOf_true_of (hall _ (show (cl ("CALSCALE:GREGORIAN")) ∈ requiredElements by decide))
    have t4 := isSubstrOf_true_of (hall _ (show (cl ("END:VCALENDAR")) ∈ requiredElements by decide))
    rcases h5 with h5 | h5
    · exact validate_no_events t1 t2 t3 t4 (Or.inl (isSubstrOf_false_of_not h5))
    · exact validate_no_events t1 t2 t3 t4 (Or.inr (isSubstrOf_false_of_not h5))
  · intro hall h5 h6 h7
    have t1 := isSubstrOf_true_of (hall _ (show (cl ("BEGIN:VCALENDAR")) ∈ requiredElements by decide))
    have t2 := isSubstrOf_true_of (hall _ (show (cl ("VERSION:2.0")) ∈ requiredElements by decide))
    have t3 := isSubstrOf_true_of (hall _ (show (cl ("CALSCALE:GREGORIAN")) ∈ requiredElements by decide))
    have t4 := isSubstrOf_true_of (hall _ (show (cl ("END:VCALENDAR")) ∈ requiredElements by decide))
    exact validate_mismatch t1 t2 t3 t4 (isSubstrOf_true_of h5)
      (isSubstrOf_true_of h6) h7

set_option maxRecDepth 40000 in
/-- Witness for C5: a minimal well-formed calendar text passes validation via
the characterization, and the empty text fails it. -/
theorem c5_validate_characterization_witness :
    validateIcsContent
      (cl ("BEGIN:VCALENDAR\r\nVERSION:2.0\r\nCALSCALE:GREGORIAN\r\nBEGIN:VEVENT\r\nEND:VEVENT\r\nEND:VCALENDAR")) = .ok () ∧
    validateIcsContent [] =
      .error (.valueError (missingElemMsg (cl ("BEGIN:VCALENDAR")))) :=
  ⟨((c5_validate_characterization
      (cl ("BEGIN:VCALENDAR\r\nVERSION:2.0\r\nCALSCALE:GREGORIAN\r\nBEGIN:VEVENT\r\nEND:VEVENT\r\nEND:VCALENDAR"))).1).mpr
    ⟨by decide, by decide, by decide, by decide⟩,
   (c5_validate_characterization []).2.1 (by decide)⟩

/-! ## C4: counting machinery for the rendered document -/

theorem countOccAux_nil (pat : List Char) : ∀ f, countOccAux pat f [] = 0 := by
  intro f
  cases f <;> rfl

theorem countOccAux_stable (pat : List Char) :
    ∀ (f : Nat), ∀ (g : Nat) (s : List Char), s.length ≤ f → s.length ≤ g →
      countOccAux pat f s = countOccAux pat g s := by
  intro f
  induction f with
  | zero =>
    intro g s hf _
    have hs : s = [] := List.eq_nil_of_length_eq_zero (Nat.le_zero.mp hf)
    subst hs
    rw [countOccAux_nil, countOccAux_nil]
  | succ f' ih =>
    intro g s hf hg
    cases s with
    | nil => rw [countOccAux_nil, countOccAux_nil]
    | cons c t =>
      cases g with
      | zero => exact absurd hg (by simp)
      | succ g' =>
        show (if pat ≠ [] ∧ pat.isPrefixOf (c :: t) then
            1 + countOccAux pat f' ((c :: t).drop pat.length)
          else countOccAux pat f' t) =
          (if pat ≠ [] ∧ pat.isPrefixOf (c :: t) then
            1 + countOccAux pat g' ((c :: t).drop pat.length)
          else countOccAux pat g' t)
        split
        · next hcond =>
          have hplen : 1 ≤ pat.length :=
            List.length_pos.mpr hcond.1
          have hdrop : ((c :: t).drop pat.length).length ≤ t.length := by
            rw [List.length_drop]
            simp only [List.length_cons]
            omega
          rw [ih _ _ (le_trans hdrop (Nat.le_of_succ_le_succ hf))
            (le_trans hdrop (Nat.le_of_succ_le_succ hg))]
        · rw [ih _ _ (Nat.le_of_succ_le_succ hf) (Nat.le_of_succ_le_succ hg)]

theorem countOcc_nil (pat : List Char) : countOcc pat [] = 0 := rfl

theorem countOcc_cons (pat : List Char) (c : Char) (t : List Char) :
    countOcc pat (c :: t) =
      if pat ≠ [] ∧ pat.isPrefixOf (c :: t) then
        1 + countOcc pat ((c :: t).drop pat.length)
      else countOcc pat t := by
  show (if pat ≠ [] ∧ pat.isPrefixOf (c :: t) then
      1 + countOccAux pat t.length ((c :: t).drop pat.length)
    else countOccAux pat t.length t) = _
  split
  · next hcond =>
    have hplen : 1 ≤ pat.length := List.length_pos.mpr hcond.1
    have hdrop : ((c :: t).drop pat.length).length ≤ t.length := by
      rw [List.length_drop]
      simp only [List.length_cons]
      omega
    rw [countOccAux_stable pat t.length _ _ hdrop (le_refl _)]
    rfl
  · rfl

theorem prefix_length_le_of_not_mem {ch : Char} {b : List Char} :
    ∀ (a pat : List Char), pat <+: a ++ ch :: b → ch ∉ pat →
      pat.length ≤ a.length := by
  intro a
  induction a with
  | nil =>
    intro pat hp hch
    cases pat with
    | nil => simp
    | cons p0 pr =>
      rcases List.cons_prefix_cons.mp hp with ⟨rfl, -⟩
      exact absurd (List.mem_cons_self _ _) hch
  | cons x a' ih =>
    intro pat hp hch
    cases pat with
    | nil => simp
    | cons p0 pr =>
      rcases List.cons_prefix_cons.mp hp with ⟨rfl, hpr⟩
      have := ih pr hpr (fun hm => hch (List.mem_cons_of_mem _ hm))
      simp only [List.length_cons]
      omega

theorem countOcc_append_sep {pat : List Char} (hpat : pat ≠ []) {ch : Char}
    (hch : ch ∉ pat) :
    ∀ (a b : List Char), countOcc pat (a ++ ch :: b) =
      countOcc pat a + countOcc pat b := by
  have main : ∀ (n : Nat) (a b : List Char), a.length = n →
      countOcc pat (a ++ ch :: b) = countOcc pat a + countOcc pat b := by
    intro n
    induction n using Nat.strong_induction_on with
    | _ n ih =>
      intro a b hlen
      cases a with
      | nil =>
        have hnp : ¬ pat.isPrefixOf (ch :: b) = true := by
          intro hp
          cases pat with
          | nil => exact hpat rfl
          | cons p0 pr =>
            rcases List.cons_prefix_cons.mp
              ( List.isPrefixOf_iff_prefix.mp hp) with ⟨rfl, -⟩
            exact hch (List.mem_cons_self _ _)
        rw [List.nil_append, countOcc_cons, if_neg (fun hand => hnp hand.2),
          countOcc_nil]
        omega
      | cons x a' =>
        subst hlen
        by_cases hpre : pat.isPrefixOf (x :: a' ++ ch :: b) = true
        · have hple : pat.length ≤ (x :: a').length := by
            have := prefix_length_le_of_not_mem (x :: a') pat
              (by simpa using List.isPrefixOf_iff_prefix.mp hpre) hch
            simpa using this
          have hpre2 : pat <+: (x :: a') :=
            List.prefix_of_prefix_length_le
              (by simpa using List.isPrefixOf_iff_prefix.mp hpre)
              (List.prefix_append _ _) hple
          have hplen : 1 ≤ pat.length := List.length_pos.mpr hpat
          rw [show x :: a' ++ ch :: b = x :: (a' ++ ch :: b) from rfl,
            countOcc_cons,
            if_pos ⟨hpat, by
              show pat.isPrefixOf (x :: (a' ++ ch :: b)) = true
              rw [ List.isPrefixOf_iff_prefix]
              exact (by simpa using hpre : pat <+: (x :: a') ++ ch :: b)⟩]
          rw [countOcc_cons pat x a', if_pos ⟨hpat,
            List.isPrefixOf_iff_prefix.mpr hpre2⟩]
          have hdropapp : (x :: (a' ++ ch :: b)).drop pat.length =
              (x :: a').drop pat.length ++ ch :: b := by
            rw [show x :: (a' ++ ch :: b) = (x :: a') ++ ch :: b from rfl]
            exact List.drop_append_of_le_length hple
          rw [hdropapp]
          have hlt : ((x :: a').drop pat.length).length < (x :: a').length := by
            rw [List.length_drop]
            simp only [List.length_cons]
            omega
          rw [ih _ hlt _ b rfl]
          omega
        · rw [show x :: a' ++ ch :: b = x :: (a' ++ ch :: b) from rfl,
            countOcc_cons, if_neg (fun hand => hpre hand.2)]
          rw [countOcc_cons pat x a', if_neg (fun hand => ?_)]
          · exact ih a'.length (by simp) a' b rfl
          · apply hpre
            rw [ List.isPrefixOf_iff_prefix] at hand ⊢
            exact hand.2.trans (List.prefix_append _ _)
  intro a b
  exact main a.length a b rfl

theorem countOcc_cons_of_not_head {pat : List Char} (hpat : pat ≠ [])
    {c : Char} (hc : c ∉ pat) (t : List Char) :
    countOcc pat (c :: t) = countOcc pat t := by
  rw [countOcc_cons]
  rw [if_neg]
  intro hand
  cases pat with
  | nil => exact hpat rfl
  | cons p0 pr =>
    rcases List.cons_prefix_cons.mp
      ( List.isPrefixOf_iff_prefix.mp hand.2) with ⟨rfl, -⟩
    exact hc (List.mem_cons_self _ _)

theorem countOcc_joinSep {pat : List Char} (hpat : pat ≠ [])
    (hcr : '\r' ∉ pat) (hlf : '\n' ∉ pat) :
    ∀ L : List (List Char),
      countOcc pat (joinSep (cl ("\r\n")) L) = (L.map (countOcc pat)).sum := by
  intro L
  induction L with
  | nil => rfl
  | cons a rest ih =>
    cases rest with
    | nil =>
      show countOcc pat a = countOcc pat a + 0
      omega
    | cons b r =>
      have h1 : joinSep (cl ("\r\n")) (a :: b :: r) =
          a ++ '\r' :: ('\n' :: joinSep (cl ("\r\n")) (b :: r)) := by
        show (a ++ cl ("\r\n")) ++ joinSep (cl ("\r\n")) (b :: r) = _
        rw [List.append_assoc]
        rfl
      rw [h1, countOcc_append_sep hpat hcr,
        countOcc_cons_of_not_head hpat hlf, ih]
      simp only [List.map_cons, List.sum_cons]

theorem countOcc_eq_zero_of_not_infix {pat l : List Char} (hpat : pat ≠ [])
    (h : ¬ pat <:+: l) : countOcc pat l = 0 := by
  induction l with
  | nil => rfl
  | cons c t ih =>
    rw [countOcc_cons, if_neg]
    · exact ih (fun hinf => h (List.infix_cons hinf))
    · intro hand
      exact h ( List.infix_cons_iff.mpr
        (Or.inl ( List.isPrefixOf_iff_prefix.mp hand.2)))

theorem infix_of_countOcc_pos {pat l : List Char} (hpat : pat ≠ [])
    (h : 0 < countOcc pat l) : pat <:+: l := by
  by_contra hn
  rw [ countOcc_eq_zero_of_not_infix hpat hn] at h
  cases h

theorem infix_joinSep_of_mem {sep : List Char} :
    ∀ {L : List (List Char)} {l : List Char}, l ∈ L → l <:+: joinSep sep L := by
  intro L
  induction L with
  | nil =>
    intro l hl
    cases hl
  | cons a rest ih =>
    intro l hl
    cases rest with
    | nil =>
      rcases List.mem_cons.mp hl with rfl | h2
      · exact List.infix_rfl
      · cases h2
    | cons b r =>
      rcases List.mem_cons.mp hl with rfl | h2
      · show l <:+: l ++ sep ++ joinSep sep (b :: r)
        exact ⟨[], sep ++ joinSep sep (b :: r), by simp⟩
      · obtain ⟨u, v, huv⟩ := ih h2
        show l <:+: a ++ sep ++ joinSep sep (b :: r)
        exact ⟨a ++ sep ++ u, v, by rw [← huv]; simp⟩

/-! ## C4: locating an occurrence across an append -/

theorem infix_append_cases {pat b : List Char} :
    ∀ a : List Char, pat <:+: a ++ b →
      pat <:+: a ∨ pat <:+: b ∨
        ∃ k, 0 < k ∧ k < pat.length ∧ pat.take k <:+ a ∧ pat.drop k <+: b := by
  intro a
  induction a with
  | nil =>
    intro h
    exact Or.inr (Or.inl (by simpa using h))
  | cons x a' ih =>
    intro h
    rcases List.infix_cons_iff.mp (by simpa using h) with hp | hi
    · -- pat is a prefix of (x :: a') ++ b
      by_cases hlen : pat.length ≤ (x :: a').length
      · exact Or.inl (List.prefix_of_prefix_length_le
          (by simpa using hp) (List.prefix_append _ _) hlen).isInfix
      · push_neg at hlen
        have hxa : (x :: a') <+: pat :=
          List.prefix_of_prefix_length_le (List.prefix_append _ _)
            (by simpa using hp) (le_of_lt hlen)
        obtain ⟨r, hr⟩ := hxa
        refine Or.inr (Or.inr ⟨(x :: a').length, by simp, hlen, ?_, ?_⟩)
        · rw [← hr, List.take_left]
        · rw [← hr, List.drop_left]
          obtain ⟨w, hw⟩ := hp
          rw [← hr] at hw
          rw [List.append_assoc] at hw
          exact ⟨w, by simpa using hw⟩
    · rcases ih hi with h1 | h1 | ⟨k, hk1, hk2, hk3, hk4⟩
      · exact Or.inl (List.infix_cons h1)
      · exact Or.inr (Or.inl h1)
      · exact Or.inr (Or.inr ⟨k, hk1, hk2,
          hk3.trans (List.suffix_cons x a'), hk4⟩)

theorem not_infix_pre {pat pre tail : List Char}
    (h1 : ¬ pat <:+: pre)
    (h2 : ∀ k, k < pat.length → 0 < k → ¬ pat.take k <:+ pre)
    (h3 : ¬ pat <:+: tail) : ¬ pat <:+: pre ++ tail := by
  intro h
  rcases infix_append_cases pre h with hc | hc | ⟨k, hk1, hk2, hk3, -⟩
  · exact h1 hc
  · exact h3 hc
  · exact h2 k hk2 hk1 hk3

theorem not_infix_app_head {pat a b : List Char} (hpat : pat ≠ [])
    (ha : ¬ pat <:+: a) (hb : ¬ pat <:+: b)
    (hh : ∀ bh, b.head? = some bh → bh ∉ pat) : ¬ pat <:+: a ++ b := by
  intro h
  rcases infix_append_cases a h with hc | hc | ⟨k, hk1, hk2, -, hk4⟩
  · exact ha hc
  · exact hb hc
  · cases hd : pat.drop k with
    | nil =>
      have : pat.length ≤ k := by
        have := congrArg List.length hd
        rw [List.length_drop] at this
        simpa using Nat.le_of_sub_eq_zero (by simpa using this)
      omega
    | cons d0 dr =>
      rw [hd] at hk4
      cases b with
      | nil => simp at hk4
      | cons b0 br =>
        rcases List.cons_prefix_cons.mp hk4 with ⟨rfl, -⟩
        refine hh d0 rfl ?_
        have : d0 ∈ pat.drop k := by
          rw [hd]
          exact List.mem_cons_self _ _
        exact (List.drop_sublist k pat).mem this

/-! ## C4: escaping cannot create a marker occurrence -/

/-- Per-character effect of `escape_ics_text` (the four sequential
`str.replace` passes touch disjoint characters, so they act independently on
each character). -/
def escChar (c : Char) : List Char :=
  if c = '\\' then cl ("\\\\") else if c = ';' then cl ("\\;")
  else if c = ',' then cl ("\\,") else if c = '\n' then cl ("\\n") else [c]

theorem replaceChar_cons (o : Char) (n : List Char) (c : Char) (s : List Char) :
    replaceChar o n (c :: s) =
      (if c = o then n else [c]) ++ replaceChar o n s := rfl

theorem escapeIcsText_eq_chain (t : List Char) :
    escapeIcsText t =
      replaceChar '\n' (cl ("\\n"))
        (replaceChar ',' (cl ("\\,"))
          (replaceChar ';' (cl ("\\;"))
            (replaceChar '\\' (cl ("\\\\")) t))) := by
  cases t with
  | nil => rfl
  | cons c s => rfl

theorem escChar_chain (c : Char) :
    replaceChar '\n' (cl ("\\n"))
      (replaceChar ',' (cl ("\\,"))
        (replaceChar ';' (cl ("\\;"))
          (replaceChar '\\' (cl ("\\\\")) [c]))) = escChar c := by
  by_cases h1 : c = '\\'
  · subst h1; rfl
  · by_cases h2 : c = ';'
    · subst h2; rfl
    · by_cases h3 : c = ','
      · subst h3; rfl
      · by_cases h4 : c = '\n'
        · subst h4; rfl
        · simp [replaceChar, escChar, h1, h2, h3, h4]

theorem escape_eq_flatMap (t : List Char) :
    escapeIcsText t = t.flatMap escChar := by
  rw [escapeIcsText_eq_chain]
  induction t with
  | nil => rfl
  | cons c s ih =>
    have hsplit : ∀ (o : Char) (n : Nat → Nat) , True := fun _ _ => trivial
    calc replaceChar '\n' (cl ("\\n"))
          (replaceChar ',' (cl ("\\,"))
            (replaceChar ';' (cl ("\\;"))
              (replaceChar '\\' (cl ("\\\\")) (c :: s))))
        = replaceChar '\n' (cl ("\\n"))
            (replaceChar ',' (cl ("\\,"))
              (replaceChar ';' (cl ("\\;"))
                (replaceChar '\\' (cl ("\\\\")) [c]))) ++
          replaceChar '\n' (cl ("\\n"))
            (replaceChar ',' (cl ("\\,"))
              (replaceChar ';' (cl ("\\;"))
                (replaceChar '\\' (cl ("\\\\")) s))) := by
          show replaceChar _ _ (replaceChar _ _ (replaceChar _ _
            (replaceChar '\\' (cl ("\\\\")) ([c] ++ s)))) = _
          simp only [replaceChar, List.flatMap_append]
      _ = escChar c ++ s.flatMap escChar := by rw [escChar_chain, ih]
      _ = (c :: s).flatMap escChar := rfl

theorem escChar_shape (c : Char) :
    escChar c = [c] ∨ ∃ z, escChar c = ['\\', z] ∧ (z = '\\' ∨ z = ';' ∨ z = ',' ∨ z = 'n') := by
  unfold escChar
  by_cases h1 : c = '\\'
  · rw [if_pos h1]
    exact Or.inr ⟨'\\', rfl, Or.inl rfl⟩
  · rw [if_neg h1]
    by_cases h2 : c = ';'
    · rw [if_pos h2]
      exact Or.inr ⟨';', rfl, Or.inr (Or.inl rfl)⟩
    · rw [if_neg h2]
      by_cases h3 : c = ','
      · rw [if_pos h3]
        exact Or.inr ⟨',', rfl, Or.inr (Or.inr (Or.inl rfl))⟩
      · rw [if_neg h3]
        by_cases h4 : c = '\n'
        · rw [if_pos h4]
          exact Or.inr ⟨'n', rfl, Or.inr (Or.inr (Or.inr rfl))⟩
        · rw [if_neg h4]
          exact Or.inl rfl

theorem pfx_infix {a b : List Char} (h : a <+: b) : a <:+: b := by
  obtain ⟨w, hw⟩ := h
  exact ⟨[], w, by simpa using hw⟩

theorem flatMap_cons_escChar (c : Char) (t : List Char) :
    (c :: t).flatMap escChar = escChar c ++ t.flatMap escChar := rfl

theorem esc_pfx :
    ∀ (s q : List Char), q <+: s.flatMap escChar → '\\' ∈ q ∨ q <+: s := by
  intro s
  induction s with
  | nil =>
    intro q h
    exact Or.inr h
  | cons c t ih =>
    intro q h
    cases q with
    | nil => exact Or.inr List.nil_prefix
    | cons qc q' =>
      rcases escChar_shape c with hc | ⟨z, hc, hz⟩
      · rw [flatMap_cons_escChar, hc] at h
        rcases List.cons_prefix_cons.mp h with ⟨rfl, hq'⟩
        rcases ih q' hq' with hbs | hpre
        · exact Or.inl (List.mem_cons_of_mem _ hbs)
        · exact Or.inr (List.cons_prefix_cons.mpr ⟨rfl, hpre⟩)
      · rw [flatMap_cons_escChar, hc] at h
        rcases List.cons_prefix_cons.mp h with ⟨rfl, -⟩
        exact Or.inl (List.mem_cons_self _ _)

theorem esc_infix {pat : List Char} (hpat : pat ≠ []) (hbs : '\\' ∉ pat)
    (hhead : ∀ h0, pat.head? = some h0 → h0 ≠ ';' ∧ h0 ≠ ',' ∧ h0 ≠ 'n') :
    ∀ s : List Char, pat <:+: s.flatMap escChar → pat <:+: s := by
  intro s
  induction s with
  | nil =>
    intro h
    have h' : pat <:+: ([] : List Char) := h
    rw [ List.infix_nil] at h'
    exact absurd h' hpat
  | cons c t ih =>
    intro h
    rcases escChar_shape c with hc | ⟨z, hc, hz⟩
    · rw [flatMap_cons_escChar, hc] at h
      rcases List.infix_cons_iff.mp (by simpa using h) with hp | hi
      · have h3 : pat <+: (c :: t).flatMap escChar := by
          rw [flatMap_cons_escChar, hc]
          simpa using hp
        rcases esc_pfx (c :: t) pat h3 with hbs2 | hpre
        · exact absurd hbs2 hbs
        · exact pfx_infix hpre
      · exact List.infix_cons (ih hi)
    · rw [flatMap_cons_escChar, hc] at h
      rcases List.infix_cons_iff.mp (by simpa using h) with hp | hi
      · cases pat with
        | nil => exact absurd rfl hpat
        | cons p0 pr =>
          rcases List.cons_prefix_cons.mp hp with ⟨rfl, -⟩
          exact absurd (List.mem_cons_self _ _) hbs
      · rcases List.infix_cons_iff.mp hi with hp2 | hi2
        · cases pat with
          | nil => exact absurd rfl hpat
          | cons p0 pr =>
            rcases List.cons_prefix_cons.mp hp2 with ⟨rfl, -⟩
            rcases hz with rfl | rfl | rfl | rfl
            · exact absurd (List.mem_cons_self _ _) hbs
            · exact absurd rfl (hhead _ rfl).1
            · exact absurd rfl (hhead _ rfl).2.1
            · exact absurd rfl (hhead _ rfl).2.2
        · exact List.infix_cons (ih hi2)

/-! ## C4: the two event markers, and fields free of them -/

/-- A field is marker-free when neither event marker occurs in it. -/
def noMark (l : List Char) : Prop := ¬ beginMark <:+: l ∧ ¬ endMark <:+: l

/-- The patterns the counting argument is instantiated at. -/
def goodPat (pat : List Char) : Prop := pat = beginMark ∨ pat = endMark

theorem gp_ne_nil {pat : List Char} (hgp : goodPat pat) : pat ≠ [] := by
  rcases hgp with rfl | rfl <;> decide

theorem gp_no_cr {pat : List Char} (hgp : goodPat pat) :
    '\r' ∉ pat ∧ '\n' ∉ pat := by
  rcases hgp with rfl | rfl <;> exact ⟨by decide, by decide⟩

theorem gp_not_esc {pat x : List Char} (hgp : goodPat pat)
    (hx : ¬ pat <:+: x) : ¬ pat <:+: escapeIcsText x := by
  intro h
  rw [escape_eq_flatMap] at h
  refine hx ( esc_infix (gp_ne_nil hgp) ?_ ?_ x h)
  · rcases hgp with rfl | rfl <;> decide
  · rcases hgp with rfl | rfl
    · intro h0 hh
      have h1 : some 'B' = some h0 := hh
      injection h1 with h2
      rw [← h2]
      exact ⟨by decide, by decide, by decide⟩
    · intro h0 hh
      have h1 : some 'E' = some h0 := hh
      injection h1 with h2
      rw [← h2]
      exact ⟨by decide, by decide, by decide⟩

/-! ## C4: numeric fields contain only digits -/

theorem natDigitsAux_digits :
    ∀ (f n : Nat), ∀ c ∈ natDigitsAux f n, c.isDigit = true := by
  intro f
  induction f with
  | zero =>
    intro n c hc
    cases hc
  | succ f' ih =>
    intro n c hc
    simp only [natDigitsAux] at hc
    split at hc
    · next h =>
      rcases List.mem_singleton.mp hc with rfl
      interval_cases n <;> decide
    · rcases List.mem_append.mp hc with h2 | h2
      · exact ih _ c h2
      · rcases List.mem_singleton.mp h2 with rfl
        have hrange : n % 10 < 10 := Nat.mod_lt _ (by omega)
        set k := n % 10 with hk
        interval_cases k <;> decide

theorem pad_digits (w n : Nat) : ∀ c ∈ pad w n, c.isDigit = true := by
  intro c hc
  rcases List.mem_append.mp hc with h | h
  · rcases List.eq_of_mem_replicate h with rfl
    decide
  · exact natDigitsAux_digits _ _ c h

theorem fmtDate_digits (d : Date) : ∀ c ∈ fmtDate d, c.isDigit = true := by
  intro c hc
  rcases List.mem_append.mp hc with h | h
  · rcases List.mem_append.mp h with h2 | h2
    · exact pad_digits _ _ c h2
    · exact pad_digits _ _ c h2
  · exact pad_digits _ _ c h

theorem fmtHM_digits (h m : Nat) : ∀ c ∈ fmtHM h m, c.isDigit = true := by
  intro c hc
  rcases List.mem_append.mp hc with h2 | h2
  · rcases List.mem_append.mp h2 with h3 | h3
    · exact pad_digits _ _ c h3
    · exact pad_digits _ _ c h3
  · rcases List.mem_cons.mp h2 with rfl | h3
    · decide
    · rcases List.mem_cons.mp h3 with rfl | h4
      · decide
      · cases h4

theorem parseTime_timed_digits {t a b : List Char}
    (h : parseTime t = some (.timed a b)) :
    (∀ c ∈ a, c.isDigit = true) ∧ (∀ c ∈ b, c.isDigit = true) := by
  unfold parseTime at h
  split at h
  · exact absurd h (by simp)
  · split at h
    · cases h
    · next sh sm hst =>
      split at h
      · cases h
      · next eh em hpe =>
        injection h with h2
        injection h2 with ha hb
        rw [← ha, ← hb]
        exact ⟨fmtHM_digits _ _, fmtHM_digits _ _⟩

theorem count_eq_zero_of_digits {l : List Char} {ch : Char}
    (hd : ∀ c ∈ l, c.isDigit = true) (hch : ch.isDigit = false) :
    l.count ch = 0 := by
  rw [List.count_eq_zero]
  intro hmem
  rw [hd ch hmem] at hch
  cases hch

theorem not_infix_count {pat l : List Char} (ch : Char)
    (h : l.count ch < pat.count ch) : ¬ pat <:+: l := by
  intro hinf
  have h2 := hinf.sublist.count_le ch
  omega

theorem mem_joinSep {sep : List Char} :
    ∀ (L : List (List Char)) (c : Char),
      c ∈ joinSep sep L → c ∈ sep ∨ ∃ l ∈ L, c ∈ l := by
  intro L
  induction L with
  | nil =>
    intro c hc
    cases hc
  | cons a rest ih =>
    cases rest with
    | nil =>
      intro c hc
      exact Or.inr ⟨a, List.mem_cons_self _ _, hc⟩
    | cons b r =>
      intro c hc
      rcases List.mem_append.mp hc with h2 | h2
      · rcases List.mem_append.mp h2 with h3 | h3
        · exact Or.inr ⟨a, List.mem_cons_self _ _, h3⟩
        · exact Or.inl h3
      · rcases ih c h2 with h3 | ⟨l, hl, hcl⟩
        · exact Or.inl h3
        · exact Or.inr ⟨l, List.mem_cons_of_mem _ hl, hcl⟩

theorem count_joinSep_zero {sep : List Char} {L : List (List Char)} {ch : Char}
    (hs : ch ∉ sep) (hL : ∀ l ∈ L, ch ∉ l) : (joinSep sep L).count ch = 0 := by
  rw [List.count_eq_zero]
  intro hmem
  rcases mem_joinSep L ch hmem with h | ⟨l, hl, hc⟩
  · exact hs h
  · exact hL l hl hc

theorem noMark_not_infix {pat l : List Char} (hgp : goodPat pat)
    (h : noMark l) : ¬ pat <:+: l := by
  rcases hgp with rfl | rfl
  · exact h.1
  · exact h.2

theorem not_infix_digits {pat l : List Char} {c : Char} (hc : c ∈ pat)
    (hcd : c.isDigit = false) (hall : ∀ x ∈ l, x.isDigit = true) :
    ¬ pat <:+: l := by
  intro h
  rw [hall c (h.sublist.subset hc)] at hcd
  cases hcd

theorem head_notin {pat b : List Char} {c : Char} (hb : b.head? = some c)
    (hc : c ∉ pat) : ∀ bh, b.head? = some bh → bh ∉ pat := by
  intro bh h
  rw [hb] at h
  injection h with h2
  rw [← h2]
  exact hc

theorem getLast?_app {x b : List Char} {c : Char} (h : b.getLast? = some c) :
    (x ++ b).getLast? = some c := by
  rw [← List.head?_reverse] at h ⊢
  rw [List.reverse_append]
  cases hb : b.reverse with
  | nil => rw [hb] at h; cases h
  | cons y ys => rw [hb] at h; simpa using h

theorem not_infix_app_last {pat a b : List Char} (hpat : pat ≠ [])
    (ha : ¬ pat <:+: a) (hb : ¬ pat <:+: b)
    (hh : ∀ c, a.getLast? = some c → c ∉ pat) : ¬ pat <:+: a ++ b := by
  intro h
  have h2 : pat.reverse <:+: b.reverse ++ a.reverse := by
    have h3 := List.reverse_infix.mpr h
    rwa [List.reverse_append] at h3
  refine not_infix_app_head (by simpa using hpat) ?_ ?_ ?_ h2
  · intro hx
    exact hb ( List.reverse_infix.mp hx)
  · intro hx
    exact ha ( List.reverse_infix.mp hx)
  · intro bh hx hmem
    exact hh bh (by rwa [ List.head?_reverse] at hx) (by simpa using hmem)

/-! ## C4: no line of a rendered block except the markers contains a marker -/

theorem z_uid {pat uid : List Char} (hgp : goodPat pat) (hu : noMark uid) :
    countOcc pat (cl ("UID:") ++ uid ++ cl ("@aggieace.converter")) = 0 := by
  apply countOcc_eq_zero_of_not_infix (gp_ne_nil hgp)
  refine not_infix_app_head (gp_ne_nil hgp) ?_ ?_ ?_
  · refine not_infix_pre ?_ ?_ ( noMark_not_infix hgp hu)
    · rcases hgp with rfl | rfl <;> decide
    · rcases hgp with rfl | rfl <;> decide
  · rcases hgp with rfl | rfl <;> decide
  · refine head_notin rfl ?_
    rcases hgp with rfl | rfl <;> decide

theorem z_dtstamp {pat dtstamp : List Char} (hgp : goodPat pat)
    (hd : noMark dtstamp) : countOcc pat (cl ("DTSTAMP:") ++ dtstamp) = 0 := by
  apply countOcc_eq_zero_of_not_infix (gp_ne_nil hgp)
  refine not_infix_pre ?_ ?_ ( noMark_not_infix hgp hd)
  · rcases hgp with rfl | rfl <;> decide
  · rcases hgp with rfl | rfl <;> decide

theorem z_summary {pat fcn nm : List Char} (hgp : goodPat pat)
    (hf : noMark fcn) (hn : noMark nm) :
    countOcc pat
      (cl ("SUMMARY:") ++ (escapeIcsText fcn ++ cl (" - ") ++ escapeIcsText nm)) = 0 := by
  apply countOcc_eq_zero_of_not_infix (gp_ne_nil hgp)
  refine not_infix_pre ?_ ?_ ?_
  · rcases hgp with rfl | rfl <;> decide
  · rcases hgp with rfl | rfl <;> decide
  · refine not_infix_app_last (gp_ne_nil hgp) ?_
      (gp_not_esc hgp ( noMark_not_infix hgp hn)) ?_
    · refine not_infix_app_head (gp_ne_nil hgp)
        (gp_not_esc hgp ( noMark_not_infix hgp hf)) ?_ ?_
      · rcases hgp with rfl | rfl <;> decide
      · refine head_notin rfl ?_
        rcases hgp with rfl | rfl <;> decide
    · intro c hc
      rw [getLast?_app (show (cl (" - ")).getLast? = some ' ' from rfl)] at hc
      injection hc with h2
      rw [← h2]
      rcases hgp with rfl | rfl <;> decide

theorem z_location {pat loc : List Char} (hgp : goodPat pat)
    (hl : noMark loc) :
    countOcc pat (cl ("LOCATION:") ++ escapeIcsText loc) = 0 := by
  apply countOcc_eq_zero_of_not_infix (gp_ne_nil hgp)
  refine not_infix_pre ?_ ?_ (gp_not_esc hgp ( noMark_not_infix hgp hl))
  · rcases hgp with rfl | rfl <;> decide
  · rcases hgp with rfl | rfl <;> decide

theorem z_status {pat : List Char} (hgp : goodPat pat) :
    countOcc pat (cl ("STATUS:CONFIRMED")) = 0 := by
  rcases hgp with rfl | rfl <;> decide

theorem z_xwrtz {pat tz : List Char} (hgp : goodPat pat) (ht : noMark tz) :
    countOcc pat (cl ("X-WR-TIMEZONE:") ++ tz) = 0 := by
  apply countOcc_eq_zero_of_not_infix (gp_ne_nil hgp)
  refine not_infix_pre ?_ ?_ ( noMark_not_infix hgp ht)
  · rcases hgp with rfl | rfl <;> decide
  · rcases hgp with rfl | rfl <;> decide

theorem z_xwrcal {pat fcn : List Char} (hgp : goodPat pat) (hf : noMark fcn) :
    countOcc pat (cl ("X-WR-CALNAME:") ++ escapeIcsText fcn) = 0 := by
  apply countOcc_eq_zero_of_not_infix (gp_ne_nil hgp)
  refine not_infix_pre ?_ ?_ (gp_not_esc hgp ( noMark_not_infix hgp hf))
  · rcases hgp with rfl | rfl <;> decide
  · rcases hgp with rfl | rfl <;> decide

theorem z_dtstart_val {pat : List Char} (hgp : goodPat pat) (d : Date) :
    countOcc pat (cl ("DTSTART;VALUE=DATE:") ++ fmtDate d) = 0 := by
  apply countOcc_eq_zero_of_not_infix (gp_ne_nil hgp)
  refine not_infix_pre ?_ ?_ ?_
  · rcases hgp with rfl | rfl <;> decide
  · rcases hgp with rfl | rfl <;> decide
  · rcases hgp with rfl | rfl
    · exact not_infix_digits (c := ':') (by decide) (by decide) (fmtDate_digits d)
    · exact not_infix_digits (c := ':') (by decide) (by decide) (fmtDate_digits d)

theorem z_dtend_val {pat : List Char} (hgp : goodPat pat) (d : Date) :
    countOcc pat (cl ("DTEND;VALUE=DATE:") ++ fmtDate d) = 0 := by
  apply countOcc_eq_zero_of_not_infix (gp_ne_nil hgp)
  refine not_infix_pre ?_ ?_ ?_
  · rcases hgp with rfl | rfl <;> decide
  · rcases hgp with rfl | rfl <;> decide
  · rcases hgp with rfl | rfl
    · exact not_infix_digits (c := ':') (by decide) (by decide) (fmtDate_digits d)
    · exact not_infix_digits (c := ':') (by decide) (by decide) (fmtDate_digits d)

theorem z_dtstart_t {pat st : List Char} (hgp : goodPat pat) (d : Date)
    (hst : ∀ c ∈ st, c.isDigit = true) :
    countOcc pat (cl ("DTSTART:") ++ fmtDate d ++ cl ("T") ++ st) = 0 := by
  apply countOcc_eq_zero_of_not_infix (gp_ne_nil hgp)
  have h1 : (fmtDate d).count 'B' = 0 :=
    count_eq_zero_of_digits (fmtDate_digits d) (by decide)
  have h2 : st.count 'B' = 0 := count_eq_zero_of_digits hst (by decide)
  have h3 : (fmtDate d).count 'V' = 0 :=
    count_eq_zero_of_digits (fmtDate_digits d) (by decide)
  have h4 : st.count 'V' = 0 := count_eq_zero_of_digits hst (by decide)
  rcases hgp with rfl | rfl
  · apply not_infix_count 'B'
    simp only [List.count_append]
    rw [h1, h2]
    decide
  · apply not_infix_count 'V'
    simp only [List.count_append]
    rw [h3, h4]
    decide

theorem z_dtend_t {pat et : List Char} (hgp : goodPat pat) (d : Date)
    (het : ∀ c ∈ et, c.isDigit = true) :
    countOcc pat (cl ("DTEND:") ++ fmtDate d ++ cl ("T") ++ et) = 0 := by
  apply countOcc_eq_zero_of_not_infix (gp_ne_nil hgp)
  have h1 : (fmtDate d).count 'B' = 0 :=
    count_eq_zero_of_digits (fmtDate_digits d) (by decide)
  have h2 : et.count 'B' = 0 := count_eq_zero_of_digits het (by decide)
  have h3 : (fmtDate d).count 'V' = 0 :=
    count_eq_zero_of_digits (fmtDate_digits d) (by decide)
  have h4 : et.count 'V' = 0 := count_eq_zero_of_digits het (by decide)
  rcases hgp with rfl | rfl
  · apply not_infix_count 'B'
    simp only [List.count_append]
    rw [h1, h2]
    decide
  · apply not_infix_count 'V'
    simp only [List.count_append]
    rw [h3, h4]
    decide

theorem z_rrule {pat : List Char} {days : List (List Char)}
    (hgp : goodPat pat) (semEnd : Date)
    (hd : ∀ l ∈ days, l ∈ weekdayCodes) :
    countOcc pat (cl ("RRULE:FREQ=WEEKLY;BYDAY=") ++ joinSep (cl (",")) days ++
      cl (";UNTIL=") ++ (fmtDate semEnd ++ cl ("T235959"))) = 0 := by
  apply countOcc_eq_zero_of_not_infix (gp_ne_nil hgp)
  have hG : (joinSep (cl (",")) days).count 'G' = 0 := by
    refine count_joinSep_zero (by decide) ?_
    intro l hl
    exact (show ∀ x ∈ weekdayCodes, 'G' ∉ x by decide) l (hd l hl)
  have hV : (joinSep (cl (",")) days).count 'V' = 0 := by
    refine count_joinSep_zero (by decide) ?_
    intro l hl
    exact (show ∀ x ∈ weekdayCodes, 'V' ∉ x by decide) l (hd l hl)
  have hfG : (fmtDate semEnd).count 'G' = 0 :=
    count_eq_zero_of_digits (fmtDate_digits semEnd) (by decide)
  have hfV : (fmtDate semEnd).count 'V' = 0 :=
    count_eq_zero_of_digits (fmtDate_digits semEnd) (by decide)
  rcases hgp with rfl | rfl
  · apply not_infix_count 'G'
    simp only [List.count_append]
    rw [hG, hfG]
    decide
  · apply not_infix_count 'V'
    simp only [List.count_append]
    rw [hV, hfV]
    decide

theorem z_desc_rec {pat nm : List Char} (hgp : goodPat pat) (hn : noMark nm) :
    countOcc pat (cl ("DESCRIPTION:Recurring ") ++ escapeIcsText nm) = 0 := by
  apply countOcc_eq_zero_of_not_infix (gp_ne_nil hgp)
  refine not_infix_pre ?_ ?_ (gp_not_esc hgp ( noMark_not_infix hgp hn))
  · rcases hgp with rfl | rfl <;> decide
  · rcases hgp with rfl | rfl <;> decide

theorem z_desc {pat nm : List Char} (hgp : goodPat pat) (hn : noMark nm) :
    countOcc pat (cl ("DESCRIPTION:") ++ escapeIcsText nm) = 0 := by
  apply countOcc_eq_zero_of_not_infix (gp_ne_nil hgp)
  refine not_infix_pre ?_ ?_ (gp_not_esc hgp ( noMark_not_infix hgp hn))
  · rcases hgp with rfl | rfl <;> decide
  · rcases hgp with rfl | rfl <;> decide

theorem cnt_begin_line {pat : List Char} (hgp : goodPat pat) :
    countOcc pat (cl ("BEGIN:VEVENT")) + countOcc pat (cl ("END:VEVENT")) = 1 := by
  rcases hgp with rfl | rfl <;> decide

/-- The weekday-code list of a recurring event record (empty for single
events). -/
def evDays (ev : Event) : List (List Char) :=
  match ev.kind with
  | .recurring ds _ _ => ds
  | .single _ => []

theorem renderEvent_block_sum {pat fcn uid dtstamp : List Char} {semEnd : Date}
    {ev : Event} {lines : List (List Char)}
    (hgp : goodPat pat) (hf : noMark fcn) (hu : noMark uid)
    (hdt : noMark dtstamp) (hn : noMark ev.name) (hl : noMark ev.location)
    (hdays : ∀ l ∈ evDays ev, l ∈ weekdayCodes)
    (h : renderEvent fcn (fmtDate semEnd ++ cl ("T235959")) dtstamp uid ev =
      .ok lines) :
    (lines.map (countOcc pat)).sum = 1 := by
  obtain ⟨nm, kind, tm, loc⟩ := ev
  simp only [renderEvent] at h
  have hc := cnt_begin_line hgp
  split at h
  · cases h
  · next timeRes hpt =>
    cases kind with
    | recurring ds sd ed =>
      simp only at h
      have hds : ∀ l ∈ ds, l ∈ weekdayCodes := hdays
      cases timeRes with
      | allDay =>
        simp only at h
        cases hnd : nextDay sd with
        | none =>
          simp only [hnd] at h
          cases h
        | some nd =>
          simp only [hnd] at h
          injection h with h2
          subst h2
          simp only [List.map_append, List.map_cons, List.map_nil,
            List.sum_append, List.sum_cons, List.sum_nil]
          rw [z_uid hgp hu, z_dtstamp hgp hdt, z_summary hgp hf hn,
            z_location hgp hl, z_status hgp, z_dtstart_val hgp sd,
            z_dtend_val hgp nd, z_rrule hgp semEnd hds, z_desc_rec hgp hn]
          omega
      | timed st et =>
        simp only at h
        injection h with h2
        subst h2
        obtain ⟨hst, het⟩ := parseTime_timed_digits hpt
        simp only [List.map_append, List.map_cons, List.map_nil,
          List.sum_append, List.sum_cons, List.sum_nil]
        rw [z_uid hgp hu, z_dtstamp hgp hdt, z_summary hgp hf hn,
          z_location hgp hl, z_status hgp, z_dtstart_t hgp sd hst,
          z_dtend_t hgp sd het, z_rrule hgp semEnd hds, z_desc_rec hgp hn]
        omega
    | single d =>
      simp only at h
      cases timeRes with
      | allDay =>
        simp only at h
        cases hnd : nextDay d with
        | none =>
          simp only [hnd] at h
          cases h
        | some nd =>
          simp only [hnd] at h
          injection h with h2
          subst h2
          simp only [List.map_append, List.map_cons, List.map_nil,
            List.sum_append, List.sum_cons, List.sum_nil]
          rw [z_uid hgp hu, z_dtstamp hgp hdt, z_summary hgp hf hn,
            z_location hgp hl, z_status hgp, z_dtstart_val hgp d,
            z_dtend_val hgp nd, z_desc hgp hn]
          omega
      | timed st et =>
        simp only at h
        injection h with h2
        subst h2
        obtain ⟨hst, het⟩ := parseTime_timed_digits hpt
        simp only [List.map_append, List.map_cons, List.map_nil,
          List.sum_append, List.sum_cons, List.sum_nil]
        rw [z_uid hgp hu, z_dtstamp hgp hdt, z_summary hgp hf hn,
          z_location hgp hl, z_status hgp, z_dtstart_t hgp d hst,
          z_dtend_t hgp d het, z_desc hgp hn]
        omega

theorem renderEvents_sum {pat fcn dtstamp : List Char} {semEnd : Date}
    {uids : Nat → List Char}
    (hgp : goodPat pat) (hf : noMark fcn) (hdt : noMark dtstamp)
    (hu : ∀ i, noMark (uids i)) :
    ∀ (evs : List Event) (idx : Nat) (lines : List (List Char)),
      (∀ ev ∈ evs, noMark ev.name ∧ noMark ev.location ∧
        ∀ l ∈ evDays ev, l ∈ weekdayCodes) →
      renderEvents fcn (fmtDate semEnd ++ cl ("T235959")) dtstamp uids evs idx =
        .ok lines →
      (lines.map (countOcc pat)).sum = evs.length := by
  intro evs
  induction evs with
  | nil =>
    intro idx lines hev h
    injection h with h2
    subst h2
    rfl
  | cons ev rest ih =>
    intro idx lines hev h
    simp only [renderEvents] at h
    split at h
    · cases h
    · next l1 h1 =>
      split at h
      · cases h
      · next more h2 =>
        injection h with h3
        subst h3
        obtain ⟨hn, hl, hd⟩ := hev ev (List.mem_cons_self _ _)
        rw [List.map_append, List.sum_append,
          renderEvent_block_sum hgp hf (hu idx) hdt hn hl hd h1,
          ih (idx + 1) more (fun e he => hev e (List.mem_cons_of_mem _ he)) h2]
        simp only [List.length_cons]
        omega

theorem z_header_concrete {pat : List Char} (hgp : goodPat pat) :
    countOcc pat (cl ("BEGIN:VCALENDAR")) = 0 ∧
    countOcc pat (cl ("VERSION:2.0")) = 0 ∧
    countOcc pat (cl ("CALSCALE:GREGORIAN")) = 0 ∧
    countOcc pat (cl ("PRODID:-//AggieAce//Syllabus Converter//EN")) = 0 ∧
    countOcc pat (cl ("END:VCALENDAR")) = 0 := by
  rcases hgp with rfl | rfl <;>
    exact ⟨by decide, by decide, by decide, by decide, by decide⟩

theorem noMark_fcn {clsName sectionNumber : List Char}
    (h1 : noMark clsName) (h2 : noMark sectionNumber) :
    noMark (clsName ++ cl (" (") ++ sectionNumber ++ cl (")")) := by
  have key : ∀ pat, goodPat pat →
      ¬ pat <:+: clsName ++ cl (" (") ++ sectionNumber ++ cl (")") := by
    intro pat hgp
    refine not_infix_app_head (gp_ne_nil hgp) ?_ ?_ ?_
    · refine not_infix_app_last (gp_ne_nil hgp) ?_
        ( noMark_not_infix hgp h2) ?_
      · refine not_infix_app_head (gp_ne_nil hgp)
          ( noMark_not_infix hgp h1) ?_ ?_
        · rcases hgp with rfl | rfl <;> decide
        · refine head_notin rfl ?_
          rcases hgp with rfl | rfl <;> decide
      · intro c hc
        rw [getLast?_app (show (cl (" (")).getLast? = some '(' from rfl)] at hc
        injection hc with h3
        rw [← h3]
        rcases hgp with rfl | rfl <;> decide
    · rcases hgp with rfl | rfl <;> decide
    · refine head_notin rfl ?_
      rcases hgp with rfl | rfl <;> decide
  exact ⟨key beginMark (Or.inl rfl), key endMark (Or.inr rfl)⟩

theorem content_count {pat clsName sectionNumber tz dtstamp : List Char}
    {uids : Nat → List Char} {semEnd : Date} {evs : List Event}
    {eventLines : List (List Char)}
    (hgp : goodPat pat) (hcls : noMark clsName) (hsec : noMark sectionNumber)
    (htz : noMark tz) (hdt : noMark dtstamp) (hu : ∀ i, noMark (uids i))
    (hev : ∀ ev ∈ evs, noMark ev.name ∧ noMark ev.location ∧
      ∀ l ∈ evDays ev, l ∈ weekdayCodes)
    (hr : renderEvents (clsName ++ cl (" (") ++ sectionNumber ++ cl (")"))
      (fmtDate semEnd ++ cl ("T235959")) dtstamp uids evs 0 = .ok eventLines) :
    countOcc pat (joinSep (cl ("\r\n"))
      ([cl ("BEGIN:VCALENDAR"), cl ("VERSION:2.0"), cl ("CALSCALE:GREGORIAN"),
        cl ("PRODID:-//AggieAce//Syllabus Converter//EN"),
        cl ("X-WR-TIMEZONE:") ++ tz,
        cl ("X-WR-CALNAME:") ++
          escapeIcsText (clsName ++ cl (" (") ++ sectionNumber ++ cl (")"))] ++
       eventLines ++ [cl ("END:VCALENDAR")])) = evs.length := by
  have hfcn := noMark_fcn hcls hsec
  rw [countOcc_joinSep (gp_ne_nil hgp) (gp_no_cr hgp).1 (gp_no_cr hgp).2]
  simp only [List.map_append, List.sum_append, List.map_cons, List.map_nil,
    List.sum_cons, List.sum_nil]
  obtain ⟨hH1, hH2, hH3, hH4, hF⟩ := z_header_concrete hgp
  rw [hH1, hH2, hH3, hH4, hF, z_xwrtz hgp htz, z_xwrcal hgp hfcn,
    renderEvents_sum hgp hfcn hdt hu evs 0 eventLines hev hr]
  omega

/-- C4 (amended): for every non-empty list of `N` parsed event records whose
name and location fields are free of the two `VEVENT` markers — and
marker-free class name, section number, timezone, timestamp and UIDs — if the
per-event rendering succeeds then `generate_ics_file` returns the calendar
text, the count of `BEGIN:VEVENT` substrings in it equals `N` and equals the
count of `END:VEVENT` substrings, and the subsequent validation passes.  (The
marker-freedom proviso is needed: text fields pass through
`escape_ics_text` unchanged except for `\ ; , \n`, so a field containing a
marker inflates the counts — see the counterexample.) -/
theorem c4_render_counts
    (extracted clsName sectionNumber ssStr seStr tz dtstamp : List Char)
    (uids : Nat → List Char) (events : List Event) (semEnd : Date)
    (eventLines : List (List Char))
    (hp : parseExtractedEvents extracted ssStr seStr = .ok events)
    (hne : events ≠ [])
    (hse : strptimeMDY seStr = some semEnd)
    (hcls : noMark clsName) (hsec : noMark sectionNumber)
    (htz : noMark tz) (hdt : noMark dtstamp) (hu : ∀ i, noMark (uids i))
    (hev : ∀ ev ∈ events, noMark ev.name ∧ noMark ev.location)
    (hr : renderEvents (clsName ++ cl (" (") ++ sectionNumber ++ cl (")"))
      (fmtDate semEnd ++ cl ("T235959")) dtstamp uids events 0 = .ok eventLines) :
    ∃ content,
      generateIcsFile extracted clsName sectionNumber ssStr seStr tz dtstamp
        uids = .ok content ∧
      validateIcsContent content = .ok () ∧
      countOcc beginMark content = events.length ∧
      countOcc endMark content = events.length := by
  have hwd : ∀ ev ∈ events, ∀ l ∈ evDays ev, l ∈ weekdayCodes := by
    intro ev hm
    obtain ⟨s1, s2, ln, -, -, hln⟩ := parseExtractedEvents_mem hp ev hm
    cases hk : ev.kind with
    | single d =>
      intro l hl
      simp [evDays, hk] at hl
    | recurring ds sd ed =>
      have hinv := (parseLine_recurring_inv hln ds sd ed hk).2
      intro l hl
      apply hinv
      simpa [evDays, hk] using hl
  have hev3 : ∀ ev ∈ events, noMark ev.name ∧ noMark ev.location ∧
      ∀ l ∈ evDays ev, l ∈ weekdayCodes :=
    fun ev hm => ⟨(hev ev hm).1, (hev ev hm).2, hwd ev hm⟩
  have hgpB : goodPat beginMark := Or.inl rfl
  have hgpE : goodPat endMark := Or.inr rfl
  have hcB := content_count hgpB hcls hsec htz hdt hu hev3 hr
  have hcE := content_count hgpE hcls hsec htz hdt hu hev3 hr
  have hNpos : 0 < events.length := List.length_pos.mpr hne
  have m1 : cl ("BEGIN:VCALENDAR") ∈
      ([cl ("BEGIN:VCALENDAR"), cl ("VERSION:2.0"), cl ("CALSCALE:GREGORIAN"),
        cl ("PRODID:-//AggieAce//Syllabus Converter//EN"),
        cl ("X-WR-TIMEZONE:") ++ tz,
        cl ("X-WR-CALNAME:") ++
          escapeIcsText (clsName ++ cl (" (") ++ sectionNumber ++ cl (")"))] ++
       eventLines ++ [cl ("END:VCALENDAR")]) :=
    List.mem_append_left _ (List.mem_append_left _ (List.mem_cons_self _ _))
  have m2 : cl ("VERSION:2.0") ∈
      ([cl ("BEGIN:VCALENDAR"), cl ("VERSION:2.0"), cl ("CALSCALE:GREGORIAN"),
        cl ("PRODID:-//AggieAce//Syllabus Converter//EN"),
        cl ("X-WR-TIMEZONE:") ++ tz,
        cl ("X-WR-CALNAME:") ++
          escapeIcsText (clsName ++ cl (" (") ++ sectionNumber ++ cl (")"))] ++
       eventLines ++ [cl ("END:VCALENDAR")]) :=
    List.mem_append_left _ (List.mem_append_left _
      (List.mem_cons_of_mem _ (List.mem_cons_self _ _)))
  have m3 : cl ("CALSCALE:GREGORIAN") ∈
      ([cl ("BEGIN:VCALENDAR"), cl ("VERSION:2.0"), cl ("CALSCALE:GREGORIAN"),
        cl ("PRODID:-//AggieAce//Syllabus Converter//EN"),
        cl ("X-WR-TIMEZONE:") ++ tz,
        cl ("X-WR-CALNAME:") ++
          escapeIcsText (clsName ++ cl (" (") ++ sectionNumber ++ cl (")"))] ++
       eventLines ++ [cl ("END:VCALENDAR")]) :=
    List.mem_append_left _ (List.mem_append_left _
      (List.mem_cons_of_mem _ (List.mem_cons_of_mem _ (List.mem_cons_self _ _))))
  have m4 : cl ("END:VCALENDAR") ∈
      ([cl ("BEGIN:VCALENDAR"), cl ("VERSION:2.0"), cl ("CALSCALE:GREGORIAN"),
        cl ("PRODID:-//AggieAce//Syllabus Converter//EN"),
        cl ("X-WR-TIMEZONE:") ++ tz,
        cl ("X-WR-CALNAME:") ++
          escapeIcsText (clsName ++ cl (" (") ++ sectionNumber ++ cl (")"))] ++
       eventLines ++ [cl ("END:VCALENDAR")]) :=
    List.mem_append_right _ (List.mem_cons_self _ _)
  have hvalid : validateIcsContent (joinSep (cl ("\r\n"))
      ([cl ("BEGIN:VCALENDAR"), cl ("VERSION:2.0"), cl ("CALSCALE:GREGORIAN"),
        cl ("PRODID:-//AggieAce//Syllabus Converter//EN"),
        cl ("X-WR-TIMEZONE:") ++ tz,
        cl ("X-WR-CALNAME:") ++
          escapeIcsText (clsName ++ cl (" (") ++ sectionNumber ++ cl (")"))] ++
       eventLines ++ [cl ("END:VCALENDAR")])) = .ok () := by
    refine validate_ok
      (isSubstrOf_true_of (infix_joinSep_of_mem m1))
      (isSubstrOf_true_of (infix_joinSep_of_mem m2))
      (isSubstrOf_true_of (infix_joinSep_of_mem m3))
      (isSubstrOf_true_of (infix_joinSep_of_mem m4))
      (isSubstrOf_true_of (infix_of_countOcc_pos (by decide) ?_))
      (isSubstrOf_true_of (infix_of_countOcc_pos (by decide) ?_))
      (by rw [hcB, hcE])
    · rw [hcB]
      exact hNpos
    · rw [hcE]
      exact hNpos
  refine ⟨_, ?_, hvalid, hcB, hcE⟩
  have hie : events.isEmpty = false := by
    cases events with
    | nil => exact absurd rfl hne
    | cons a t => rfl
  simp only [generateIcsFile, hp, hie, Bool.false_eq_true, if_false, hse, hr,
    hvalid]

instance noMarkDec (l : List Char) : Decidable (noMark l) :=
  inferInstanceAs (Decidable (¬ _ ∧ ¬ _))

set_option maxRecDepth 100000 in
/-- Witness for C4: a two-event syllabus (one MWF recurring lecture, one
timed single exam) renders to a calendar with exactly two
`BEGIN:VEVENT`/`END:VEVENT` pairs that passes validation. -/
theorem c4_render_counts_witness :
    ∃ content,
      generateIcsFile
        (cl ("Lecture | MWF | 10:00-11:00 | HELD 200\nMidterm Exam | 10/15/2025 | 19:00-21:00 | ZACH 310"))
        (cl ("CSCE 311")) (cl ("546")) (cl ("08/25/2025")) (cl ("12/16/2025"))
        (cl ("America/Chicago")) (cl ("20250101T000000Z")) (fun _ => cl ("u0")) =
        .ok content ∧
      validateIcsContent content = .ok () ∧
      countOcc beginMark content = 2 ∧
      countOcc endMark content = 2 :=
  c4_render_counts _ _ _ _ _ _ _ _
    [⟨cl ("Lecture"),
      .recurring [cl ("MO"), cl ("WE"), cl ("FR")] ⟨2025, 8, 25⟩ ⟨2025, 12, 16⟩,
      cl ("10:00-11:00"), cl ("HELD 200")⟩,
     ⟨cl ("Midterm Exam"), .single ⟨2025, 10, 15⟩,
      cl ("19:00-21:00"), cl ("ZACH 310")⟩]
    ⟨2025, 12, 16⟩ _ rfl (by decide) rfl (by decide) (by decide) (by decide)
    (by decide) (fun i => by decide) (by decide) rfl

set_option maxRecDepth 100000 in
/-- Counterexample for C4 as stated: the extraction line
`END:VEVENT | 10/15/2025 | 19:00 | R` parses to one valid event whose *name*
is `END:VEVENT`; escaping does not touch it, so the rendered text contains
two `END:VEVENT` occurrences against one `BEGIN:VEVENT` and validation
rejects the output instead of passing. -/
theorem c4_counterexample :
    parseExtractedEvents (cl ("END:VEVENT | 10/15/2025 | 19:00 | R"))
      (cl ("08/25/2025")) (cl ("12/16/2025")) =
      .ok [⟨cl ("END:VEVENT"), .single ⟨2025, 10, 15⟩, cl ("19:00"), cl ("R")⟩] ∧
    generateIcsFile (cl ("END:VEVENT | 10/15/2025 | 19:00 | R")) (cl ("CSCE 311"))
      (cl ("546")) (cl ("08/25/2025")) (cl ("12/16/2025")) (cl ("America/Chicago"))
      (cl ("20250101T000000Z")) (fun _ => cl ("u0")) =
      .error (.valueError mismatchedMsg) :=
  ⟨rfl, rfl⟩
